import Mathlib

/-!
# CHIP-8 emulator: a shallow embedding of `src/emulator.cpp`

The class `Emulator` becomes a structure of the machine state, and each member
function becomes a function on that structure.  Machine integers are bounded
naturals (`Fin 256` for `uint8_t`, `Fin 65536` for `uint16_t`); every
conversion back to a machine width is an explicit `% 256` or `% 65536`.
Operations that C++ leaves undefined (an array index outside the array,
`top()`/`pop()` on an empty `std::stack`) return `Except.error`.
-/

namespace Chip8

/-! ## Machine integers -/

/-- An `uint8_t` value. -/
abbrev U8 := Fin 256

/-- An `uint16_t` value. -/
abbrev U16 := Fin 65536

/-- Conversion of an `int` to `uint8_t`: reduction modulo 2^8. -/
def toU8 (n : Nat) : U8 := ⟨n % 256, Nat.mod_lt n (by decide)⟩

/-- Conversion of an `int` to `uint16_t`: reduction modulo 2^16. -/
def toU16 (n : Nat) : U16 := ⟨n % 65536, Nat.mod_lt n (by decide)⟩

/-! ## Constants of the source -/

/-- Source constant `WIDTH`. -/
abbrev WIDTH : Nat := 64

/-- Source constant `HEIGHT`. -/
abbrev HEIGHT : Nat := 32

/-- Source constant `newShift`. -/
abbrev newShift : Bool := false

/-- Source constant `newJump`. -/
abbrev newJump : Bool := false

/-- Source constant `newMemory`. -/
abbrev newMemory : Bool := false

/-- Size of the array `memory`. -/
abbrev MEMSIZE : Nat := 4096

/-! ## State, undefined behaviour, output -/

/-- The ways in which a member function can leave the behaviour defined by C++:
an index outside `memory`, or `top()`/`pop()` on an empty `std::stack`. -/
inductive Undefined where
  | memoryOutOfRange (addr : Nat)
  | emptyStack
  deriving DecidableEq, Repr

/-- What a member function writes to the standard streams: a line on `cout`, or
a line on `cerr`, or the `cerr` line `Unrecongized instruction first X Y N`.  In the
inner `default` of `case 0xF` the name `first` is not the opcode's nibble but the
local `int first` declared in `case 0x33`, which is in scope there and has no
value yet: of that line only X, Y and N are determined (`unrecognizedShadowed`). -/
inductive Output where
  | cout (line : String)
  | cerr (line : String)
  | unrecognized (first X Y N : Nat)
  | unrecognizedShadowed (X Y N : Nat)
  deriving DecidableEq, Repr

/-- The data members of class `Emulator`.  Arrays are functions from the index;
only indices inside the array are ever read or written (`memory`: below 4096,
`display`: below `WIDTH*HEIGHT`, `registers`: below 16).  The random generator
is the stream of bytes that `distrib(gen)` will return. -/
structure Emulator where
  memory : Nat → U8
  display : Nat → Bool
  PC : U16
  I : U16
  stack : List U16
  delay : U8
  sound : U8
  registers : Nat → U8
  keyPress : U8
  gen : Nat → U8

/-- Assignment `a[i] = v` to an array element. -/
def assign {α : Type} (a : Nat → α) (i : Nat) (v : α) : Nat → α :=
  fun j => if j = i then v else a j

/-- Read of `memory[addr]`. -/
def readMem (memory : Nat → U8) (addr : Nat) : Except Undefined U8 :=
  if addr < MEMSIZE then .ok (memory addr) else .error (.memoryOutOfRange addr)

/-- Assignment `memory[addr] = v`. -/
def writeMem (memory : Nat → U8) (addr : Nat) (v : U8) : Except Undefined (Nat → U8) :=
  if addr < MEMSIZE then .ok (assign memory addr v)
  else .error (.memoryOutOfRange addr)

/-- Conversion of a possibly negative `int` to `uint8_t`. -/
def intToU8 (z : Int) : U8 := ⟨(z % 256).toNat, by omega⟩

/-- Conversion of a possibly negative `int` to `uint16_t`. -/
def intToU16 (z : Int) : U16 := ⟨(z % 65536).toNat, by omega⟩

/-! ## Constructor, `load`, timers, keys -/

/-- The array `font` of the constructor. -/
def font : List U8 :=
  List.map toU8
  [0xF0, 0x90, 0x90, 0x90, 0xF0,
   0x20, 0x60, 0x20, 0x20, 0x70,
   0xF0, 0x10, 0xF0, 0x80, 0xF0,
   0xF0, 0x10, 0xF0, 0x10, 0xF0,
   0x90, 0x90, 0xF0, 0x10, 0x10,
   0xF0, 0x80, 0xF0, 0x10, 0xF0,
   0xF0, 0x80, 0xF0, 0x90, 0xF0,
   0xF0, 0x10, 0x20, 0x40, 0x40,
   0xF0, 0x90, 0xF0, 0x90, 0xF0,
   0xF0, 0x90, 0xF0, 0x10, 0xF0,
   0xF0, 0x90, 0xF0, 0x90, 0x90,
   0xE0, 0x90, 0xE0, 0x90, 0xE0,
   0xF0, 0x80, 0x80, 0x80, 0xF0,
   0xE0, 0x90, 0x90, 0x90, 0xE0,
   0xF0, 0x80, 0xF0, 0x80, 0xF0,
   0xF0, 0x80, 0xF0, 0x80, 0x80]

/-- The constructor `Emulator()`.  The array `memory` has no initialiser, so
its bytes outside the font are whatever the storage held (`memory0`); the
generator is seeded from `random_device`, so its stream `gen` is a parameter
too.  `std::stack` starts empty. -/
def Emulator.new (memory0 : Nat → U8) (gen : Nat → U8) : Emulator where
  memory := fun a => if 0x50 ≤ a ∧ a < 0x50 + 80 then font.getD (a - 0x50) (toU8 0) else memory0 a
  display := fun _ => false
  PC := toU16 0x200
  I := toU16 0x0
  stack := []
  delay := toU8 255
  sound := toU8 255
  registers := fun _ => toU8 0x0
  keyPress := toU8 0xFF
  gen := gen

/-- Member function `load`.  The file is its content, `none` when it cannot be
opened; `file.read` copies the bytes to `memory[0x200 ..]`. -/
def load (file : Option (List U8)) (e : Emulator) : Bool × Emulator × List Output :=
  match file with
  | none => (false, e, [.cerr "Failed to open File"])
  | some bytes =>
    if bytes.length > 4096 - 0x200 then (false, e, [.cerr "File too big for memory"])
    else
      (true,
       { e with memory := fun a =>
          if 0x200 ≤ a ∧ a < 0x200 + bytes.length then bytes.getD (a - 0x200) (toU8 0)
          else e.memory a },
       [])

/-- Member function `getDisplay`. -/
def getDisplay (e : Emulator) : Nat → Bool := e.display

/-- Member function `decrementTimers`. -/
def decrementTimers (e : Emulator) : Emulator :=
  let delay := if e.delay.val > 0 then intToU8 (e.delay.val - 1) else e.delay
  let sound := if e.sound.val > 0 then intToU8 (e.sound.val - 1) else e.sound
  { e with delay := delay, sound := sound }

/-- Member function `keyPressed`. -/
def keyPressed (key : U8) (e : Emulator) : Emulator × List Output :=
  ({ e with keyPress := key },
   [.cout ("key pressed: " ++ String.singleton (Char.ofNat key.val))])

/-! ## `fetch` -/

/-- Member function `fetch`: `instruct = memory[PC]*0x100 + memory[PC+1]; PC += 2;`. -/
def fetch (e : Emulator) : Except Undefined (U16 × Emulator) :=
  match readMem e.memory e.PC.val, readMem e.memory (e.PC.val + 1) with
  | .ok hi, .ok lo =>
    .ok (toU16 (hi.val * 0x100 + lo.val), { e with PC := toU16 (e.PC.val + 2) })
  | .error u, _ => .error u
  | .ok _, .error u => .error u

/-! ## `decode` -/

/-- Field `uint8_t first = (instruct & 0xF000) >> 12`. -/
def fieldFirst (instruct : U16) : Nat := ((instruct.val &&& 0xF000) >>> 12) % 256

/-- Field `uint8_t X = (instruct & 0x0F00) >> 8`. -/
def fieldX (instruct : U16) : Nat := ((instruct.val &&& 0x0F00) >>> 8) % 256

/-- Field `uint8_t Y = (instruct & 0x00F0) >> 4`. -/
def fieldY (instruct : U16) : Nat := ((instruct.val &&& 0x00F0) >>> 4) % 256

/-- Field `uint8_t N = (instruct & 0x000F)`. -/
def fieldN (instruct : U16) : Nat := (instruct.val &&& 0x000F) % 256

/-- Field `uint8_t NN = (instruct & 0x00FF)`. -/
def fieldNN (instruct : U16) : Nat := (instruct.val &&& 0x00FF) % 256

/-- Field `uint16_t NNN = (instruct & 0x0FFF)`. -/
def fieldNNN (instruct : U16) : Nat := (instruct.val &&& 0x0FFF) % 65536

/-- The loop `for(int i = 0; i<WIDTH*HEIGHT; i++) display[i] = false;`. -/
def clearDisplay (display : Nat → Bool) : Nat → Bool :=
  fun i => if i < WIDTH * HEIGHT then false else display i

/-- Body of `case 0x8`: the inner `switch(N)`, which has no `default`. -/
def decodeArith (X Y N : Nat) (registers : Nat → U8) : (Nat → U8) × List Output :=
  if N = 0x0 then
    (assign registers X (registers Y), [.cout "set VX to VY"])
  else if N = 0x1 then
    (assign registers X (toU8 ((registers X).val ||| (registers Y).val)),
     [.cout "binary OR"])
  else if N = 0x2 then
    (assign registers X (toU8 ((registers X).val &&& (registers Y).val)),
     [.cout "binary AND"])
  else if N = 0x3 then
    (assign registers X (toU8 ((registers X).val ^^^ (registers Y).val)),
     [.cout "binary XOR"])
  else if N = 0x4 then
    let vx := registers X
    let vy := registers Y
    let registers1 := assign registers X (toU8 (vx.val + vy.val))
    (if vx.val + vy.val > 255 then assign registers1 0xF (toU8 1)
     else assign registers1 0xF (toU8 0),
     [.cout "add"])
  else if N = 0x5 then
    let vx := registers X
    let vy := registers Y
    let registers1 := assign registers X (intToU8 ((vx.val : Int) - (vy.val : Int)))
    (if (vx.val : Int) ≥ (vy.val : Int) then assign registers1 0xF (toU8 1)
     else assign registers1 0xF (toU8 0),
     [.cout "subtract VX-VY"])
  else if N = 0x6 then
    let registers1 := if !newShift then assign registers X (registers Y) else registers
    let vx := registers1 X
    let registers2 := assign registers1 X (toU8 (vx.val >>> 1))
    (assign registers2 0xF (toU8 (vx.val &&& 0x01)), [.cout "shift right"])
  else if N = 0x7 then
    let vx := registers X
    let vy := registers Y
    let registers1 := assign registers X (intToU8 ((vy.val : Int) - (vx.val : Int)))
    (if (vy.val : Int) ≥ (vx.val : Int) then assign registers1 0xF (toU8 1)
     else assign registers1 0xF (toU8 0),
     [.cout "subtract VY-VX"])
  else if N = 0xE then
    let registers1 := if !newShift then assign registers X (registers Y) else registers
    let vx := registers1 X
    let registers2 := assign registers1 X (toU8 (vx.val <<< 1))
    (assign registers2 0xF (toU8 ((vx.val &&& 0x80) >>> 7)), [.cout "shift left"])
  else
    (registers, [])

/-- The body of the inner loop of `case 0xD` up to `xCor++`: the sprite bit `j`
of `rowData` is tested and, when set, the collision flag and the cell at
`(xCor, yCor)` are updated. -/
def drawPixel (rowData : U8) (yCor j xCor : Nat) (s : (Nat → Bool) × (Nat → U8)) :
    (Nat → Bool) × (Nat → U8) :=
  let pixel := (rowData.val &&& (0x80 >>> j)) % 256
  if pixel ≠ 0 then
    (assign s.1 (yCor * WIDTH + xCor) (xor (s.1 (yCor * WIDTH + xCor)) true),
     if s.1 (yCor * WIDTH + xCor) then assign s.2 0xF (toU8 1) else s.2)
  else s

/-- The inner loop of `case 0xD`, `for(int j = 0; j<8; j++)`, with `n` iterations
still to run: the call with `n = 8`, `j = 0` is the whole loop. -/
def drawColumns (rowData : U8) (yCor : Nat) :
    Nat → Nat → Nat → (Nat → Bool) × (Nat → U8) → (Nat → Bool) × (Nat → U8)
  | 0, _, _, s => s
  | n + 1, j, xCor, s =>
    let s1 := drawPixel rowData yCor j xCor s
    let xCor1 := (xCor + 1) % 256
    if xCor1 ≥ WIDTH then s1 else drawColumns rowData yCor n (j + 1) xCor1 s1

/-- The outer loop of `case 0xD`, `for(int i = 0; i<N; i++)`, with `n` iterations
still to run: the call with `n = N`, `i = 0` is the whole loop. -/
def drawRows (memory : Nat → U8) (I X : Nat) :
    Nat → Nat → Nat → (Nat → Bool) × (Nat → U8) →
      Except Undefined ((Nat → Bool) × (Nat → U8))
  | 0, _, _, s => .ok s
  | n + 1, i, yCor, s =>
    let xCor := (s.2 X).val % WIDTH
    match readMem memory (I + i) with
    | .error u => .error u
    | .ok rowData =>
      let s1 := drawColumns rowData yCor 8 0 xCor s
      let yCor1 := (yCor + 1) % 256
      if yCor1 ≥ HEIGHT then .ok s1 else drawRows memory I X n (i + 1) yCor1 s1

/-- Body of `case 0xD`. -/
def decodeDraw (X Y N : Nat) (e : Emulator) : Except Undefined Emulator :=
  let yCor := (e.registers Y).val % HEIGHT
  let registers := assign e.registers 0xF (toU8 0)
  match drawRows e.memory e.I.val X N 0 yCor (e.display, registers) with
  | .error u => .error u
  | .ok s => .ok { e with display := s.1, registers := s.2 }

/-- The three assignments of `case 0x33`. -/
def storeDecimal (memory : Nat → U8) (I : Nat) (vx : U8) : Except Undefined (Nat → U8) :=
  match writeMem memory I (toU8 (vx.val / 100)) with
  | .error u => .error u
  | .ok memory1 =>
    match writeMem memory1 (I + 1) (toU8 ((vx.val / 10) % 10)) with
    | .error u => .error u
    | .ok memory2 => writeMem memory2 (I + 2) (toU8 (vx.val % 10))

/-- The loop of `case 0x55`, `for(int i = 0; i <= X; i++) memory[I+i] = registers[i];`,
with `n` iterations still to run: the call with `n = X + 1`, `i = 0` is the whole loop. -/
def storeRegisters (registers : Nat → U8) (I : Nat) :
    Nat → Nat → (Nat → U8) → Except Undefined (Nat → U8)
  | 0, _, memory => .ok memory
  | n + 1, i, memory =>
    match writeMem memory (I + i) (registers i) with
    | .error u => .error u
    | .ok memory1 => storeRegisters registers I n (i + 1) memory1

/-- The loop of `case 0x65`, `for(int i = 0; i <= X; i++) registers[i] = memory[I+i];`,
with `n` iterations still to run: the call with `n = X + 1`, `i = 0` is the whole loop. -/
def loadRegisters (memory : Nat → U8) (I : Nat) :
    Nat → Nat → (Nat → U8) → Except Undefined (Nat → U8)
  | 0, _, registers => .ok registers
  | n + 1, i, registers =>
    match readMem memory (I + i) with
    | .error u => .error u
    | .ok v => loadRegisters memory I n (i + 1) (assign registers i v)

/-- Body of `case 0xF`: the inner `switch(NN)`.  The result is followed, in
`decode`, by the outer `default`, because `case 0xF` has no `break`. -/
def decodeMisc (X Y N NN : Nat) (e : Emulator) :
    Except Undefined (Emulator × List Output) :=
  if NN = 0x07 then
    .ok ({ e with registers := assign e.registers X e.delay }, [])
  else if NN = 0x15 then
    .ok ({ e with delay := e.registers X }, [])
  else if NN = 0x18 then
    .ok ({ e with sound := e.registers X }, [])
  else if NN = 0x1E then
    let vx := e.registers X
    let registers1 :=
      if e.I.val + vx.val > 255 then assign e.registers 0xF (toU8 1) else e.registers
    .ok ({ e with registers := registers1, I := toU16 (e.I.val + vx.val) }, [])
  else if NN = 0x0A then
    .ok (if e.keyPress.val > 0x0F then { e with PC := intToU16 ((e.PC.val : Int) - 2) } else e,
         [])
  else if NN = 0x29 then
    .ok ({ e with I := toU16 (0x50 + (e.registers X).val * 5) }, [])
  else if NN = 0x33 then
    match storeDecimal e.memory e.I.val (e.registers X) with
    | .error u => .error u
    | .ok memory1 => .ok ({ e with memory := memory1 }, [])
  else if NN = 0x55 then
    match storeRegisters e.registers e.I.val (X + 1) 0 e.memory with
    | .error u => .error u
    | .ok memory1 =>
      .ok ({ e with memory := memory1,
                    I := if !newMemory then toU16 (e.I.val + X + 1) else e.I }, [])
  else if NN = 0x65 then
    match loadRegisters e.memory e.I.val (X + 1) 0 e.registers with
    | .error u => .error u
    | .ok registers1 =>
      .ok ({ e with registers := registers1,
                    I := if !newMemory then toU16 (e.I.val + X + 1) else e.I }, [])
  else
    .ok (e, [.unrecognizedShadowed X Y N])

/-- Member function `decode`: the outer `switch(first)`.  The result is the new
state together with the lines written to `cout` and `cerr`, in order. -/
def decode (instruct : U16) (e : Emulator) : Except Undefined (Emulator × List Output) :=
  let first := fieldFirst instruct
  let X := fieldX instruct
  let Y := fieldY instruct
  let N := fieldN instruct
  let NN := fieldNN instruct
  let NNN := fieldNNN instruct
  if first = 0x0 then
    if NNN = 0x0E0 then
      .ok ({ e with display := clearDisplay e.display }, [.cout "clear screen"])
    else if NNN = 0x0EE then
      match e.stack with
      | [] => .error .emptyStack
      | top :: rest =>
        .ok ({ e with PC := top, stack := rest }, [.cout "return from subroutine"])
    else
      .ok (e, [.unrecognized first X Y N])
  else if first = 0x1 then
    .ok ({ e with PC := toU16 NNN },
         [.cout ("jump to " ++ String.mk (Nat.toDigits 16 NNN))])
  else if first = 0x2 then
    .ok ({ e with stack := e.PC :: e.stack, PC := toU16 NNN }, [.cout "execute subroutine"])
  else if first = 0x3 then
    .ok (if (e.registers X).val = NN then { e with PC := toU16 (e.PC.val + 2) } else e,
         [.cout "skip next instruction if VX is equal to NN"])
  else if first = 0x4 then
    .ok (if (e.registers X).val ≠ NN then { e with PC := toU16 (e.PC.val + 2) } else e,
         [.cout "skip next instruction if VX isn't equal to NN"])
  else if first = 0x5 then
    .ok (if e.registers X = e.registers Y then { e with PC := toU16 (e.PC.val + 2) } else e,
         [.cout "skip next instruction if VX equals VY"])
  else if first = 0x6 then
    .ok ({ e with registers := assign e.registers X (toU8 NN) },
         [.cout "set register"])
  else if first = 0x7 then
    .ok ({ e with registers :=
            assign e.registers X (toU8 ((e.registers X).val + NN)) },
         [.cout "add to register"])
  else if first = 0x8 then
    .ok ({ e with registers := (decodeArith X Y N e.registers).1 },
         (decodeArith X Y N e.registers).2)
  else if first = 0x9 then
    .ok (if e.registers X ≠ e.registers Y then { e with PC := toU16 (e.PC.val + 2) } else e,
         [.cout "skip next instruction if VX doesn't equal VY"])
  else if first = 0xA then
    .ok ({ e with I := toU16 NNN }, [.cout "set index register"])
  else if first = 0xB then
    let PC1 := toU16 NNN
    .ok ({ e with PC := if newJump then toU16 (PC1.val + (e.registers X).val) else PC1 },
         [.cout "jump with offset"])
  else if first = 0xC then
    .ok ({ e with registers := assign e.registers X (toU8 ((e.gen 0).val &&& NN)),
                  gen := fun k => e.gen (k + 1) },
         [.cout "random"])
  else if first = 0xD then
    match decodeDraw X Y N e with
    | .error u => .error u
    | .ok e1 => .ok (e1, [.cout "draw sprite"])
  else if first = 0xE then
    if NN = 0x9E then
      .ok (if e.registers X = e.keyPress then { e with PC := toU16 (e.PC.val + 2) } else e, [])
    else if NN = 0xA1 then
      .ok (if e.registers X ≠ e.keyPress then { e with PC := toU16 (e.PC.val + 2) } else e, [])
    else
      .ok (e, [])
  else if first = 0xF then
    match decodeMisc X Y N NN e with
    | .error u => .error u
    | .ok (e1, out) => .ok (e1, out ++ [.unrecognized first X Y N])
  else
    .ok (e, [.unrecognized first X Y N])

/-- One iteration of `emuLoop`: `emu->decode(emu->fetch())`. -/
def cycle (e : Emulator) : Except Undefined (Emulator × List Output) :=
  match fetch e with
  | .error u => .error u
  | .ok (instruct, e1) => decode instruct e1

/-- The first `n` iterations of `emuLoop`, the output lines dropped. -/
def cycles : Nat → Emulator → Except Undefined Emulator
  | 0, e => .ok e
  | n + 1, e =>
    match cycle e with
    | .error u => .error u
    | .ok (e1, _) => cycles n e1

/-- Calls of `fetch`, `n` times in a row with no `decode` in between: the opcodes
returned, in order, and the final state. -/
def fetchMany : Nat → Emulator → Except Undefined (List U16 × Emulator)
  | 0, e => .ok ([], e)
  | n + 1, e =>
    match fetch e with
    | .error u => .error u
    | .ok (w, e1) =>
      match fetchMany n e1 with
      | .error u => .error u
      | .ok (ws, e2) => .ok (w :: ws, e2)

/-- The program of the scenario of C2: `V0 := 10`, `V1 := 5`, `V0 += V1`. -/
def addProgram : List U8 := List.map toU8 [0x60, 0x0A, 0x61, 0x05, 0x80, 0x14]

/-- A machine state for the concrete instances: register `Vr` holds `(37 * r + 150) % 256`. -/
def sampleState : Emulator :=
  { Emulator.new (fun a => toU8 (a * 7)) (fun k => toU8 (k + 1)) with
    registers := fun r => toU8 (37 * r + 150) }

/-- A machine state for the concrete draws: blank screen, I at the font glyph `0`
(whose first row is `0xF0`), VF = 5 and every other register 0. -/
def drawState : Emulator :=
  { Emulator.new (fun _ => toU8 0) (fun _ => toU8 0) with
    I := toU16 0x50
    registers := fun r => if r = 0xF then toU8 5 else toU8 0 }

/-- The sample state with I = 0x300, for the concrete register store and load. -/
def storeState : Emulator := { sampleState with I := toU16 0x300 }

/-- The sample state with key 7 pressed. -/
def keyState : Emulator := { sampleState with keyPress := toU8 7 }

/-- The sample state with I = 0x10, VF = 1 and every other register 2. -/
def flagState : Emulator :=
  { sampleState with
    I := toU16 0x10
    registers := fun r => if r = 0xF then toU8 1 else toU8 2 }

/-- The sample state with PC = 4095, the last byte of memory. -/
def endState : Emulator := { sampleState with PC := toU16 4095 }

/-- A freshly constructed machine whose storage held `0xAB` in every byte. -/
def staleMachine : Emulator := Emulator.new (fun _ => toU8 0xAB) (fun _ => toU8 0)

/-- A freshly constructed machine whose storage held `0` in every byte. -/
def freshMachine : Emulator := Emulator.new (fun _ => toU8 0) (fun _ => toU8 0)

/-- The states that a sequence of calls of `load`, `fetch`, `decode`,
`decrementTimers` and `keyPressed` can reach from a freshly constructed machine. -/
inductive Reachable : Emulator → Prop where
  | new (memory0 gen : Nat → U8) : Reachable (Emulator.new memory0 gen)
  | load (file : Option (List U8)) (e : Emulator) :
      Reachable e → Reachable (load file e).2.1
  | fetch (e e' : Emulator) (w : U16) :
      Reachable e → fetch e = .ok (w, e') → Reachable e'
  | decode (w : U16) (e e' : Emulator) (out : List Output) :
      Reachable e → decode w e = .ok (e', out) → Reachable e'
  | decrementTimers (e : Emulator) : Reachable e → Reachable (decrementTimers e)
  | keyPressed (key : U8) (e : Emulator) : Reachable e → Reachable (keyPressed key e).1

/-- Some cell that is set in `D` is clear in `D'`: a cell was turned off. -/
def Collides (D D' : Nat → Bool) : Prop := ∃ p, D p = true ∧ D' p = false

/-- The collision flag of a draw from framebuffer `D`, registers `R` to `D'`, `R'`:
VF is 1 when a cell was turned off and keeps its value otherwise, and no other
register changes. -/
def FlagOK (R R' : Nat → U8) (D D' : Nat → Bool) : Prop :=
  (Collides D D' → R' 0xF = toU8 1) ∧ (¬ Collides D D' → R' 0xF = R 0xF) ∧
  ∀ r, r ≠ 0xF → R' r = R r

/-- The sprite bit that a draw XORs into the framebuffer cell with index `p`
(column `p % 64` of row `p / 64`), for a sprite of `n` rows read from `memory[a ..]`
and drawn at origin `(x0, y0)`: inside the box, clipped at the screen edge, it is
bit `7 - (x - x0)` of `memory[a + (y - y0)]`; elsewhere it is `false`. -/
def spriteMask (memory : Nat → U8) (a x0 y0 n p : Nat) : Bool :=
  decide (y0 ≤ p / 64 ∧ p / 64 < y0 + n ∧ p / 64 < 32 ∧ x0 ≤ p % 64 ∧ p % 64 < x0 + 8) &&
    (memory (a + (p / 64 - y0))).val.testBit (7 - (p % 64 - x0))

/-! ## Opcodes by their fields

The theorems name an opcode by its four nibbles, as the specification does
(`8XY4`, `DXYN`, `2NNN`). -/

/-- The opcode with nibbles `a b c d`, most significant first. -/
def opcode (a b c d : Nat) : U16 := toU16 (a * 0x1000 + b * 0x100 + c * 0x10 + d)

/-- The opcode with high nibble `a` and low twelve bits `nnn`. -/
def opcodeNNN (a nnn : Nat) : U16 := toU16 (a * 0x1000 + nnn)

/-! ## Lemmas on machine integers and opcode fields -/

theorem assign_apply {α : Type} (a : Nat → α) (i : Nat) (v : α) (j : Nat) :
    assign a i v j = if j = i then v else a j := rfl

@[simp] theorem assign_same {α : Type} (a : Nat → α) (i : Nat) (v : α) :
    assign a i v i = v := by simp [assign]

theorem assign_other {α : Type} (a : Nat → α) {i j : Nat} (v : α) (h : j ≠ i) :
    assign a i v j = a j := by simp [assign, h]

@[simp] theorem toU8_val (n : Nat) : (toU8 n).val = n % 256 := rfl

@[simp] theorem toU16_val (n : Nat) : (toU16 n).val = n % 65536 := rfl

@[simp] theorem intToU8_val (z : Int) : (intToU8 z).val = (z % 256).toNat := rfl

theorem shiftRight_land (a b i : Nat) : (a &&& b) >>> i = (a >>> i) &&& (b >>> i) := by
  apply Nat.eq_of_testBit_eq
  intro j
  simp [Nat.testBit_shiftRight, Nat.testBit_and]

theorem fieldFirst_eq (w : U16) : fieldFirst w = w.val / 4096 := by
  have h := w.isLt
  unfold fieldFirst
  rw [shiftRight_land, Nat.shiftRight_eq_div_pow]
  have : (0xF000 >>> 12 : Nat) = 2 ^ 4 - 1 := by decide
  rw [this, Nat.and_pow_two_sub_one_eq_mod]
  omega

theorem fieldX_eq (w : U16) : fieldX w = w.val / 256 % 16 := by
  have h := w.isLt
  unfold fieldX
  rw [shiftRight_land, Nat.shiftRight_eq_div_pow]
  have : (0x0F00 >>> 8 : Nat) = 2 ^ 4 - 1 := by decide
  rw [this, Nat.and_pow_two_sub_one_eq_mod]
  omega

theorem fieldY_eq (w : U16) : fieldY w = w.val / 16 % 16 := by
  have h := w.isLt
  unfold fieldY
  rw [shiftRight_land, Nat.shiftRight_eq_div_pow]
  have : (0x00F0 >>> 4 : Nat) = 2 ^ 4 - 1 := by decide
  rw [this, Nat.and_pow_two_sub_one_eq_mod]
  omega

theorem fieldN_eq (w : U16) : fieldN w = w.val % 16 := by
  unfold fieldN
  have : (0x000F : Nat) = 2 ^ 4 - 1 := by decide
  rw [this, Nat.and_pow_two_sub_one_eq_mod]
  omega

theorem fieldNN_eq (w : U16) : fieldNN w = w.val % 256 := by
  unfold fieldNN
  have : (0x00FF : Nat) = 2 ^ 8 - 1 := by decide
  rw [this, Nat.and_pow_two_sub_one_eq_mod]
  omega

theorem fieldNNN_eq (w : U16) : fieldNNN w = w.val % 4096 := by
  unfold fieldNNN
  have : (0x0FFF : Nat) = 2 ^ 12 - 1 := by decide
  rw [this, Nat.and_pow_two_sub_one_eq_mod]
  omega

theorem opcode_val (a b c d : Nat) (ha : a < 16) (hb : b < 16) (hc : c < 16) (hd : d < 16) :
    (opcode a b c d).val = a * 4096 + b * 256 + c * 16 + d := by
  simp only [opcode, toU16]
  omega

theorem opcodeNNN_val (a nnn : Nat) (ha : a < 16) (hn : nnn < 4096) :
    (opcodeNNN a nnn).val = a * 4096 + nnn := by
  simp only [opcodeNNN, toU16]
  omega

theorem fields_opcode (a b c d : Nat) (ha : a < 16) (hb : b < 16) (hc : c < 16) (hd : d < 16) :
    fieldFirst (opcode a b c d) = a ∧ fieldX (opcode a b c d) = b ∧
    fieldY (opcode a b c d) = c ∧ fieldN (opcode a b c d) = d ∧
    fieldNN (opcode a b c d) = c * 16 + d ∧
    fieldNNN (opcode a b c d) = b * 256 + c * 16 + d := by
  rw [fieldFirst_eq, fieldX_eq, fieldY_eq, fieldN_eq, fieldNN_eq, fieldNNN_eq,
    opcode_val a b c d ha hb hc hd]
  omega

theorem decode_arith (e : Emulator) (X Y N : Nat) (hX : X < 16) (hY : Y < 16) (hN : N < 16) :
    decode (opcode 8 X Y N) e =
      .ok ({ e with registers := (decodeArith X Y N e.registers).1 },
           (decodeArith X Y N e.registers).2) := by
  obtain ⟨h1, h2, h3, h4, -, -⟩ := fields_opcode 8 X Y N (by omega) hX hY hN
  simp [decode, h1, h2, h3, h4]

@[simp] theorem MEMSIZE_eq : MEMSIZE = 4096 := rfl

theorem cycle_eq (e : Emulator) (w : U16) (hpc : e.PC.val + 1 < MEMSIZE)
    (hw : w = toU16 ((e.memory e.PC.val).val * 0x100 + (e.memory (e.PC.val + 1)).val)) :
    cycle e = decode w { e with PC := toU16 (e.PC.val + 2) } := by
  have h1 : e.PC.val < MEMSIZE := by omega
  subst hw
  simp only [cycle, fetch, readMem, h1, hpc, if_true]

theorem decode_set (e : Emulator) (X a b : Nat) (hX : X < 16) (ha : a < 16) (hb : b < 16) :
    decode (opcode 6 X a b) e =
      .ok ({ e with registers := assign e.registers X (toU8 (a * 16 + b)) },
           [.cout "set register"]) := by
  obtain ⟨h1, h2, -, -, h5, -⟩ := fields_opcode 6 X a b (by omega) hX ha hb
  simp [decode, h1, h2, h5]

theorem land_128_testBit (v : Nat) : (v &&& 0x80) >>> 7 = (v.testBit 7).toNat := by
  have h := Nat.and_two_pow v 7
  have h2 : (0x80 : Nat) = 2 ^ 7 := by decide
  rw [h2, h, Nat.shiftRight_eq_div_pow]
  simp

theorem bool_toNat_mod (b : Bool) : b.toNat % 256 = b.toNat := by
  cases b <;> rfl

/-! ## Lemmas on the draw loops -/

theorem collides_compose (D D1 D' : Nat → Bool) (b : Nat)
    (h1 : ∀ p, b ≤ p → D1 p = D p) (h2 : ∀ p, p < b → D' p = D1 p) :
    Collides D D' ↔ Collides D D1 ∨ Collides D1 D' := by
  constructor
  · rintro ⟨p, hp, hp'⟩
    by_cases hb : p < b
    · exact Or.inl ⟨p, hp, by rw [← h2 p hb]; exact hp'⟩
    · exact Or.inr ⟨p, by rw [h1 p (by omega)]; exact hp, hp'⟩
  · rintro (⟨p, hp, hp1⟩ | ⟨p, hp1, hp'⟩)
    · have hb : p < b := by
        by_contra hb
        have := h1 p (by omega)
        rw [hp, hp1] at this
        exact absurd this (by decide)
      exact ⟨p, hp, by rw [h2 p hb]; exact hp1⟩
    · have hb : b ≤ p := by
        by_contra hb
        have := h2 p (by omega)
        rw [hp1, hp'] at this
        exact absurd this (by decide)
      exact ⟨p, by rw [← h1 p hb]; exact hp1, hp'⟩

theorem flagOK_refl (R : Nat → U8) (D : Nat → Bool) : FlagOK R R D D := by
  refine ⟨?_, fun _ => rfl, fun _ _ => rfl⟩
  rintro ⟨p, hp, hp'⟩
  rw [hp] at hp'
  exact absurd hp' (by decide)

theorem flagOK_compose {R R1 R' : Nat → U8} {D D1 D' : Nat → Bool} (b : Nat)
    (h1 : ∀ p, b ≤ p → D1 p = D p) (h2 : ∀ p, p < b → D' p = D1 p)
    (f1 : FlagOK R R1 D D1) (f2 : FlagOK R1 R' D1 D') : FlagOK R R' D D' := by
  have hc := collides_compose D D1 D' b h1 h2
  obtain ⟨a1, b1, c1⟩ := f1
  obtain ⟨a2, b2, c2⟩ := f2
  refine ⟨?_, ?_, ?_⟩
  · intro h
    by_cases h' : Collides D1 D'
    · exact a2 h'
    · rw [b2 h']
      rcases hc.1 h with h | h
      · exact a1 h
      · exact absurd h h'
  · intro h
    have n1 : ¬ Collides D D1 := fun x => h (hc.2 (Or.inl x))
    have n2 : ¬ Collides D1 D' := fun x => h (hc.2 (Or.inr x))
    rw [b2 n2, b1 n1]
  · intro r hr
    rw [c2 r hr, c1 r hr]

theorem drawPixel_frame (rowData : U8) (y j x : Nat) (s : (Nat → Bool) × (Nat → U8)) :
    (∀ p, p ≠ y * 64 + x → (drawPixel rowData y j x s).1 p = s.1 p) ∧
    FlagOK s.2 (drawPixel rowData y j x s).2 s.1 (drawPixel rowData y j x s).1 := by
  unfold drawPixel
  by_cases hpix : (rowData.val &&& (0x80 >>> j)) % 256 ≠ 0
  · simp only [hpix, ne_eq, not_false_eq_true, if_true]
    by_cases hD : s.1 (y * WIDTH + x) = true
    · simp only [hD, if_true]
      refine ⟨fun p hp => assign_other _ _ hp, fun _ => assign_same _ _ _, ?_,
        fun r hr => assign_other _ _ hr⟩
      intro h
      exact absurd ⟨y * 64 + x, hD, by simp⟩ h
    · simp only [hD]
      refine ⟨fun p hp => assign_other _ _ hp, ?_, fun _ => rfl, fun _ _ => rfl⟩
      rintro ⟨p, hp, hp'⟩
      by_cases hpp : p = y * 64 + x
      · subst hpp
        exact absurd hp hD
      · rw [assign_other _ _ hpp, hp] at hp'
        exact absurd hp' (by decide)
  · simp only [hpix, if_false]
    exact ⟨fun _ _ => trivial, flagOK_refl _ _⟩

theorem drawColumns_frame (rowData : U8) (y : Nat) :
    ∀ (n j x : Nat) (s : (Nat → Bool) × (Nat → U8)), x < 64 →
      (∀ p, (p < y * 64 + x ∨ y * 64 + 64 ≤ p) →
        (drawColumns rowData y n j x s).1 p = s.1 p) ∧
      FlagOK s.2 (drawColumns rowData y n j x s).2 s.1 (drawColumns rowData y n j x s).1 := by
  intro n
  induction n with
  | zero =>
    intro j x s _
    exact ⟨fun _ _ => rfl, flagOK_refl _ _⟩
  | succ n ih =>
    intro j x s hx
    obtain ⟨hp1, hf1⟩ := drawPixel_frame rowData y j x s
    have hx1 : (x + 1) % 256 = x + 1 := by omega
    simp only [drawColumns, hx1]
    by_cases hstop : x + 1 ≥ WIDTH
    · simp only [hstop, if_true]
      exact ⟨fun p hp => hp1 p (by simp only [WIDTH] at hstop; omega), hf1⟩
    · simp only [hstop, if_false]
      obtain ⟨hp2, hf2⟩ := ih (j + 1) (x + 1) (drawPixel rowData y j x s)
        (by simp only [WIDTH] at hstop; omega)
      refine ⟨fun p hp => ?_, ?_⟩
      · rw [hp2 p (by omega), hp1 p (by omega)]
      · exact flagOK_compose (y * 64 + x + 1) (fun p hp => hp1 p (by omega))
          (fun p hp => hp2 p (by omega)) hf1 hf2

theorem drawRows_frame (memory : Nat → U8) (I X : Nat) :
    ∀ (n i y : Nat) (s : (Nat → Bool) × (Nat → U8)), y < 32 → I + i + n ≤ 4096 →
      ∃ s', drawRows memory I X n i y s = .ok s' ∧
        (∀ p, (p < y * 64 ∨ 2048 ≤ p) → s'.1 p = s.1 p) ∧
        FlagOK s.2 s'.2 s.1 s'.1 := by
  intro n
  induction n with
  | zero =>
    intro i y s _ _
    exact ⟨s, rfl, fun _ _ => rfl, flagOK_refl _ _⟩
  | succ n ih =>
    intro i y s hy hI
    have hr : readMem memory (I + i) = .ok (memory (I + i)) := by
      simp only [readMem, MEMSIZE_eq]
      rw [if_pos (by omega)]
    have hx : (s.2 X).val % WIDTH < 64 := Nat.mod_lt _ (by decide)
    obtain ⟨hp1, hf1⟩ := drawColumns_frame (memory (I + i)) y 8 0 ((s.2 X).val % WIDTH) s hx
    have hy1 : (y + 1) % 256 = y + 1 := by omega
    simp only [drawRows, hr, hy1]
    by_cases hstop : y + 1 ≥ HEIGHT
    · simp only [hstop, if_true]
      exact ⟨_, rfl, fun p hp => hp1 p (by omega), hf1⟩
    · simp only [hstop, if_false]
      obtain ⟨s', hs', hp2, hf2⟩ := ih (i + 1) (y + 1)
        (drawColumns (memory (I + i)) y 8 0 ((s.2 X).val % WIDTH) s)
        (by simp only [HEIGHT] at hstop; omega) (by omega)
      refine ⟨s', hs', fun p hp => ?_, ?_⟩
      · rw [hp2 p (by omega), hp1 p (by omega)]
      · exact flagOK_compose ((y + 1) * 64) (fun p hp => hp1 p (by omega))
          (fun p hp => hp2 p (by omega)) hf1 hf2

theorem decode_draw (e : Emulator) (X Y N : Nat) (hX : X < 16) (hY : Y < 16) (hN : N < 16) :
    decode (opcode 0xD X Y N) e =
      match decodeDraw X Y N e with
      | .error u => .error u
      | .ok e1 => .ok (e1, [.cout "draw sprite"]) := by
  obtain ⟨h1, h2, h3, h4, -, -⟩ := fields_opcode 0xD X Y N (by omega) hX hY hN
  simp [decode, h1, h2, h3, h4]

theorem collides_cells (D D' : Nat → Bool) (h : ∀ p, 2048 ≤ p → D' p = D p) :
    Collides D D' ↔
      ∃ x y, x < 64 ∧ y < 32 ∧ D (y * 64 + x) = true ∧ D' (y * 64 + x) = false := by
  constructor
  · rintro ⟨p, hp, hp'⟩
    have hlt : p < 2048 := by
      by_contra hge
      have := h p (by omega)
      rw [hp, hp'] at this
      exact absurd this (by decide)
    have hpd : p / 64 * 64 + p % 64 = p := by omega
    exact ⟨p % 64, p / 64, by omega, by omega, by rw [hpd]; exact hp, by rw [hpd]; exact hp'⟩
  · rintro ⟨x, y, -, -, h1, h2⟩
    exact ⟨_, h1, h2⟩

theorem pixel_testBit (r : U8) (j : Nat) (hj : j < 8) :
    decide ((r.val &&& (0x80 >>> j)) % 256 ≠ 0) = r.val.testBit (7 - j) := by
  have h2 : (0x80 : Nat) >>> j = 2 ^ (7 - j) := by
    interval_cases j <;> rfl
  rw [h2, Nat.and_two_pow]
  cases r.val.testBit (7 - j)
  · simp
  · interval_cases j <;> simp

theorem drawPixel_display (rowData : U8) (y j x : Nat) (s : (Nat → Bool) × (Nat → U8))
    (p : Nat) :
    (drawPixel rowData y j x s).1 p =
      xor (s.1 p) (decide (p = y * 64 + x) &&
        decide ((rowData.val &&& (0x80 >>> j)) % 256 ≠ 0)) := by
  unfold drawPixel
  by_cases hpix : (rowData.val &&& (0x80 >>> j)) % 256 ≠ 0
  · by_cases hp : p = y * 64 + x
    · subst hp
      simp [hpix]
    · simp [hpix, hp, assign_other]
  · simp [hpix]

theorem drawColumns_display (rowData : U8) (y : Nat) :
    ∀ (n j x : Nat) (s : (Nat → Bool) × (Nat → U8)), x < 64 → ∀ p,
      (drawColumns rowData y n j x s).1 p =
        xor (s.1 p) (decide (y * 64 + x ≤ p ∧ p < y * 64 + x + n ∧ p < y * 64 + 64) &&
          decide ((rowData.val &&& (0x80 >>> (j + (p - (y * 64 + x))))) % 256 ≠ 0)) := by
  intro n
  induction n with
  | zero =>
    intro j x s _ p
    have h : ¬ (y * 64 + x ≤ p ∧ p < y * 64 + x + 0 ∧ p < y * 64 + 64) := by omega
    simp only [drawColumns, h, decide_False, Bool.false_and, Bool.xor_false]
  | succ n ih =>
    intro j x s hx p
    have hx1 : (x + 1) % 256 = x + 1 := by omega
    simp only [drawColumns, hx1]
    by_cases hstop : x + 1 ≥ WIDTH
    · simp only [hstop, if_true]
      have hx63 : x = 63 := by simp only [WIDTH] at hstop; omega
      rw [drawPixel_display]
      by_cases hp : p = y * 64 + x
      · subst hp
        have h : y * 64 + x ≤ y * 64 + x ∧ y * 64 + x < y * 64 + x + (n + 1) ∧
            y * 64 + x < y * 64 + 64 := by omega
        simp [h]
      · have h : ¬ (y * 64 + x ≤ p ∧ p < y * 64 + x + (n + 1) ∧ p < y * 64 + 64) := by omega
        simp [h, hp]
    · simp only [hstop, if_false]
      rw [ih (j + 1) (x + 1) _ (by simp only [WIDTH] at hstop; omega) p, drawPixel_display]
      rcases Nat.lt_trichotomy p (y * 64 + x) with hlt | heq | hgt
      · have h1 : ¬ (y * 64 + (x + 1) ≤ p ∧ p < y * 64 + (x + 1) + n ∧ p < y * 64 + 64) := by
          omega
        have h2 : ¬ (y * 64 + x ≤ p ∧ p < y * 64 + x + (n + 1) ∧ p < y * 64 + 64) := by omega
        have h3 : p ≠ y * 64 + x := by omega
        simp [h1, h2, h3]
      · subst heq
        have h1 : ¬ (y * 64 + (x + 1) ≤ y * 64 + x ∧ y * 64 + x < y * 64 + (x + 1) + n ∧
            y * 64 + x < y * 64 + 64) := by omega
        have h2 : y * 64 + x ≤ y * 64 + x ∧ y * 64 + x < y * 64 + x + (n + 1) ∧
            y * 64 + x < y * 64 + 64 := by omega
        simp [h1, h2]
      · have h3 : p ≠ y * 64 + x := by omega
        have h4 : j + 1 + (p - (y * 64 + (x + 1))) = j + (p - (y * 64 + x)) := by omega
        have h5 : (y * 64 + (x + 1) ≤ p ∧ p < y * 64 + (x + 1) + n ∧ p < y * 64 + 64) ↔
            (y * 64 + x ≤ p ∧ p < y * 64 + x + (n + 1) ∧ p < y * 64 + 64) := by omega
        simp only [h3, h4, h5, decide_False, Bool.false_and, Bool.xor_false]

theorem drawRow_display (rowData : U8) (y x0 : Nat) (s : (Nat → Bool) × (Nat → U8))
    (hx : x0 < 64) (p : Nat) :
    (drawColumns rowData y 8 0 x0 s).1 p =
      xor (s.1 p) (decide (p / 64 = y ∧ x0 ≤ p % 64 ∧ p % 64 < x0 + 8) &&
        rowData.val.testBit (7 - (p % 64 - x0))) := by
  rw [drawColumns_display rowData y 8 0 x0 s hx p]
  by_cases h : p / 64 = y ∧ x0 ≤ p % 64 ∧ p % 64 < x0 + 8
  · have h' : y * 64 + x0 ≤ p ∧ p < y * 64 + x0 + 8 ∧ p < y * 64 + 64 := by omega
    have hidx : 0 + (p - (y * 64 + x0)) = p % 64 - x0 := by omega
    rw [hidx, pixel_testBit rowData _ (by omega)]
    simp [h, h']
  · have h' : ¬ (y * 64 + x0 ≤ p ∧ p < y * 64 + x0 + 8 ∧ p < y * 64 + 64) := by omega
    simp [h, h']

theorem drawRows_display (memory : Nat → U8) (I X : Nat) (hX : X ≠ 0xF) :
    ∀ (n i y : Nat) (s : (Nat → Bool) × (Nat → U8)), y < 32 → I + i + n ≤ 4096 →
      ∃ s', drawRows memory I X n i y s = .ok s' ∧
        (∀ p, s'.1 p = xor (s.1 p) (spriteMask memory (I + i) ((s.2 X).val % 64) y n p)) ∧
        (∀ r, r ≠ 0xF → s'.2 r = s.2 r) := by
  intro n
  induction n with
  | zero =>
    intro i y s _ _
    refine ⟨s, rfl, fun p => ?_, fun _ _ => rfl⟩
    have h : ¬ (y ≤ p / 64 ∧ p / 64 < y + 0 ∧ p / 64 < 32 ∧
        (s.2 X).val % 64 ≤ p % 64 ∧ p % 64 < (s.2 X).val % 64 + 8) := by omega
    simp only [spriteMask, h, decide_False, Bool.false_and, Bool.xor_false]
  | succ n ih =>
    intro i y s hy hI
    have hr : readMem memory (I + i) = .ok (memory (I + i)) := by
      simp only [readMem, MEMSIZE_eq]
      rw [if_pos (by omega)]
    have hx : (s.2 X).val % 64 < 64 := Nat.mod_lt _ (by decide)
    have hrow := drawRow_display (memory (I + i)) y ((s.2 X).val % 64) s hx
    obtain ⟨-, -, -, hreg1⟩ := drawColumns_frame (memory (I + i)) y 8 0 ((s.2 X).val % 64) s hx
    have hy1 : (y + 1) % 256 = y + 1 := by omega
    simp only [drawRows, hr, hy1, WIDTH]
    by_cases hstop : y + 1 ≥ HEIGHT
    · simp only [hstop, if_true]
      have hy31 : y = 31 := by simp only [HEIGHT] at hstop; omega
      refine ⟨_, rfl, fun p => ?_, hreg1⟩
      rw [hrow p]
      by_cases hp : p / 64 = y
      · have e1 : I + i + (p / 64 - y) = I + i := by omega
        have e2 : (y ≤ p / 64 ∧ p / 64 < y + (n + 1) ∧ p / 64 < 32 ∧
            (s.2 X).val % 64 ≤ p % 64 ∧ p % 64 < (s.2 X).val % 64 + 8) ↔
            (p / 64 = y ∧ (s.2 X).val % 64 ≤ p % 64 ∧ p % 64 < (s.2 X).val % 64 + 8) := by
          omega
        simp only [spriteMask, e1, e2]
      · have e2 : ¬ (y ≤ p / 64 ∧ p / 64 < y + (n + 1) ∧ p / 64 < 32 ∧
            (s.2 X).val % 64 ≤ p % 64 ∧ p % 64 < (s.2 X).val % 64 + 8) := by omega
        have e3 : ¬ (p / 64 = y ∧ (s.2 X).val % 64 ≤ p % 64 ∧
            p % 64 < (s.2 X).val % 64 + 8) := by omega
        simp only [spriteMask, e2, e3, decide_False, Bool.false_and]
    · simp only [hstop, if_false]
      obtain ⟨s', hs', hp2, hreg2⟩ := ih (i + 1) (y + 1)
        (drawColumns (memory (I + i)) y 8 0 ((s.2 X).val % 64) s)
        (by simp only [HEIGHT] at hstop; omega) (by omega)
      refine ⟨s', hs', fun p => ?_, fun r hr => by rw [hreg2 r hr, hreg1 r hr]⟩
      rw [hp2 p, hrow p, hreg1 X hX]
      by_cases hp : p / 64 = y
      · have e1 : I + i + (p / 64 - y) = I + i := by omega
        have e2 : (y ≤ p / 64 ∧ p / 64 < y + (n + 1) ∧ p / 64 < 32 ∧
            (s.2 X).val % 64 ≤ p % 64 ∧ p % 64 < (s.2 X).val % 64 + 8) ↔
            (p / 64 = y ∧ (s.2 X).val % 64 ≤ p % 64 ∧ p % 64 < (s.2 X).val % 64 + 8) := by
          omega
        have e3 : ¬ (y + 1 ≤ p / 64 ∧ p / 64 < y + 1 + n ∧ p / 64 < 32 ∧
            (s.2 X).val % 64 ≤ p % 64 ∧ p % 64 < (s.2 X).val % 64 + 8) := by omega
        simp only [spriteMask, e1, e2, e3, decide_False, Bool.false_and, Bool.xor_false]
      · have e3 : ¬ (p / 64 = y ∧ (s.2 X).val % 64 ≤ p % 64 ∧
            p % 64 < (s.2 X).val % 64 + 8) := by omega
        by_cases hin : y + 1 ≤ p / 64 ∧ p / 64 < y + 1 + n ∧ p / 64 < 32 ∧
            (s.2 X).val % 64 ≤ p % 64 ∧ p % 64 < (s.2 X).val % 64 + 8
        · have e2 : y ≤ p / 64 ∧ p / 64 < y + (n + 1) ∧ p / 64 < 32 ∧
              (s.2 X).val % 64 ≤ p % 64 ∧ p % 64 < (s.2 X).val % 64 + 8 := by omega
          have e1 : I + (i + 1) + (p / 64 - (y + 1)) = I + i + (p / 64 - y) := by omega
          simp only [spriteMask, e1, decide_eq_true e2, decide_eq_false e3,
            decide_eq_true hin, Bool.false_and, Bool.xor_false]
        · have e2 : ¬ (y ≤ p / 64 ∧ p / 64 < y + (n + 1) ∧ p / 64 < 32 ∧
              (s.2 X).val % 64 ≤ p % 64 ∧ p % 64 < (s.2 X).val % 64 + 8) := by omega
          simp only [spriteMask, decide_eq_false e2, decide_eq_false e3,
            decide_eq_false hin, Bool.false_and, Bool.xor_false]

theorem decode_draw_display (e : Emulator) (X Y N : Nat) (hX : X < 15) (hY : Y < 16)
    (hN : N < 16) (hI : e.I.val + N ≤ 4096) :
    ∃ e', decode (opcode 0xD X Y N) e = .ok (e', [.cout "draw sprite"]) ∧
      (∀ p, e'.display p = xor (e.display p)
        (spriteMask e.memory e.I.val ((e.registers X).val % 64)
          ((e.registers Y).val % 32) N p)) ∧
      (∀ r, r ≠ 0xF → e'.registers r = e.registers r) ∧
      e'.memory = e.memory ∧ e'.I = e.I := by
  have hXF : X ≠ 0xF := by omega
  obtain ⟨s', hs', hp, hreg⟩ := drawRows_display e.memory e.I.val X hXF N 0
    ((e.registers Y).val % HEIGHT) (e.display, assign e.registers 0xF (toU8 0))
    (Nat.mod_lt _ (by decide)) (by omega)
  refine ⟨{ e with display := s'.1, registers := s'.2 }, ?_, ?_, ?_, rfl, rfl⟩
  · rw [decode_draw e X Y N (by omega) hY hN]
    simp only [decodeDraw, hs']
  · intro p
    have := hp p
    simp only [assign_other _ _ hXF, Nat.add_zero] at this
    exact this
  · intro r hr
    show s'.2 r = _
    rw [hreg r hr]
    exact assign_other _ _ hr

theorem draw_cells_of_origin (e : Emulator) (X Y N : Nat) (hX : X < 15) (hY : Y < 16)
    (hN : N < 16) (hI : e.I.val + N ≤ 4096) :
    ∃ e' out, decode (opcode 0xD X Y N) e = .ok (e', out) ∧
      ∀ x y, x < 64 → y < 32 →
        e'.display (y * 64 + x) =
          if (e.registers X).val % 64 ≤ x ∧ x < min ((e.registers X).val % 64 + 8) 64 ∧
              (e.registers Y).val % 32 ≤ y ∧ y < min ((e.registers Y).val % 32 + N) 32 then
            xor (e.display (y * 64 + x))
              ((e.memory (e.I.val + (y - (e.registers Y).val % 32))).val.testBit
                (7 - (x - (e.registers X).val % 64)))
          else e.display (y * 64 + x) := by
  obtain ⟨e', hd, hp, -⟩ := decode_draw_display e X Y N hX hY hN hI
  refine ⟨e', _, hd, fun x y hx hy => ?_⟩
  rw [hp]
  have h1 : (y * 64 + x) / 64 = y := by omega
  have h2 : (y * 64 + x) % 64 = x := by omega
  simp only [spriteMask, h1, h2]
  by_cases hin : (e.registers X).val % 64 ≤ x ∧ x < min ((e.registers X).val % 64 + 8) 64 ∧
      (e.registers Y).val % 32 ≤ y ∧ y < min ((e.registers Y).val % 32 + N) 32
  · have hin' : (e.registers Y).val % 32 ≤ y ∧ y < (e.registers Y).val % 32 + N ∧ y < 32 ∧
        (e.registers X).val % 64 ≤ x ∧ x < (e.registers X).val % 64 + 8 := by omega
    rw [if_pos hin, decide_eq_true hin', Bool.true_and]
  · have hin' : ¬ ((e.registers Y).val % 32 ≤ y ∧ y < (e.registers Y).val % 32 + N ∧ y < 32 ∧
        (e.registers X).val % 64 ≤ x ∧ x < (e.registers X).val % 64 + 8) := by omega
    rw [if_neg hin, decide_eq_false hin', Bool.false_and, Bool.xor_false]

theorem fields_opcodeNNN (a nnn : Nat) (ha : a < 16) (hn : nnn < 4096) :
    fieldFirst (opcodeNNN a nnn) = a ∧ fieldNNN (opcodeNNN a nnn) = nnn := by
  rw [fieldFirst_eq, fieldNNN_eq, opcodeNNN_val a nnn ha hn]
  omega

theorem decode_call (e : Emulator) (nnn : Nat) (hn : nnn < 4096) :
    decode (opcodeNNN 2 nnn) e =
      .ok ({ e with stack := e.PC :: e.stack, PC := toU16 nnn },
           [.cout "execute subroutine"]) := by
  obtain ⟨h1, h2⟩ := fields_opcodeNNN 2 nnn (by omega) hn
  simp [decode, h1, h2]

theorem decode_return (e : Emulator) :
    decode (opcodeNNN 0 0x0EE) e =
      match e.stack with
      | [] => .error .emptyStack
      | top :: rest =>
        .ok ({ e with PC := top, stack := rest }, [.cout "return from subroutine"]) := by
  obtain ⟨h1, h2⟩ := fields_opcodeNNN 0 0x0EE (by omega) (by omega)
  simp [decode, h1, h2]

theorem storeRegisters_spec (R : Nat → U8) (I : Nat) :
    ∀ (n i : Nat) (m : Nat → U8), I + i + n ≤ 4096 →
      ∃ m', storeRegisters R I n i m = .ok m' ∧
        ∀ a, m' a = if I + i ≤ a ∧ a < I + i + n then R (a - I) else m a := by
  intro n
  induction n with
  | zero =>
    intro i m _
    refine ⟨m, rfl, fun a => ?_⟩
    rw [if_neg (by omega)]
  | succ n ih =>
    intro i m h
    obtain ⟨m', hm', hspec⟩ := ih (i + 1) (assign m (I + i) (R i)) (by omega)
    refine ⟨m', ?_, fun a => ?_⟩
    · simp only [storeRegisters, writeMem, MEMSIZE_eq]
      rw [if_pos (by omega)]
      exact hm'
    · rw [hspec a]
      by_cases h1 : I + (i + 1) ≤ a ∧ a < I + (i + 1) + n
      · rw [if_pos h1, if_pos (by omega)]
      · rw [if_neg h1]
        by_cases h2 : a = I + i
        · subst h2
          rw [assign_same, if_pos (by omega)]
          congr 1
          omega
        · rw [assign_other _ _ h2, if_neg (by omega)]

theorem loadRegisters_spec (m : Nat → U8) (I : Nat) :
    ∀ (n i : Nat) (R : Nat → U8), I + i + n ≤ 4096 →
      ∃ R', loadRegisters m I n i R = .ok R' ∧
        ∀ r, R' r = if i ≤ r ∧ r < i + n then m (I + r) else R r := by
  intro n
  induction n with
  | zero =>
    intro i R _
    refine ⟨R, rfl, fun r => ?_⟩
    rw [if_neg (by omega)]
  | succ n ih =>
    intro i R h
    obtain ⟨R', hR', hspec⟩ := ih (i + 1) (assign R i (m (I + i))) (by omega)
    refine ⟨R', ?_, fun r => ?_⟩
    · simp only [loadRegisters, readMem, MEMSIZE_eq]
      rw [if_pos (by omega)]
      exact hR'
    · rw [hspec r]
      by_cases h1 : i + 1 ≤ r ∧ r < i + 1 + n
      · rw [if_pos h1, if_pos (by omega)]
      · rw [if_neg h1]
        by_cases h2 : r = i
        · subst h2
          rw [assign_same, if_pos (by omega)]
        · rw [assign_other _ _ h2, if_neg (by omega)]

theorem decode_store (e : Emulator) (X : Nat) (hX : X < 16) :
    decode (opcode 0xF X 5 5) e =
      match storeRegisters e.registers e.I.val (X + 1) 0 e.memory with
      | .error u => .error u
      | .ok memory1 =>
        .ok ({ e with memory := memory1, I := toU16 (e.I.val + X + 1) },
             [.unrecognized 0xF X 5 5]) := by
  obtain ⟨h1, h2, h3, h4, h5, -⟩ := fields_opcode 0xF X 5 5 (by omega) hX (by omega) (by omega)
  simp only [decode, h1, h2, h3, h4, h5, decodeMisc]
  simp
  cases storeRegisters e.registers e.I.val (X + 1) 0 e.memory <;> rfl

theorem decode_load (e : Emulator) (X : Nat) (hX : X < 16) :
    decode (opcode 0xF X 6 5) e =
      match loadRegisters e.memory e.I.val (X + 1) 0 e.registers with
      | .error u => .error u
      | .ok registers1 =>
        .ok ({ e with registers := registers1, I := toU16 (e.I.val + X + 1) },
             [.unrecognized 0xF X 6 5]) := by
  obtain ⟨h1, h2, h3, h4, h5, -⟩ := fields_opcode 0xF X 6 5 (by omega) hX (by omega) (by omega)
  simp only [decode, h1, h2, h3, h4, h5, decodeMisc]
  simp
  cases loadRegisters e.memory e.I.val (X + 1) 0 e.registers <;> rfl

theorem decode_misc (e : Emulator) (X c d : Nat) (hX : X < 16) (hc : c < 16) (hd : d < 16) :
    decode (opcode 0xF X c d) e =
      match decodeMisc X c d (c * 16 + d) e with
      | .error u => .error u
      | .ok (e1, out) => .ok (e1, out ++ [.unrecognized 0xF X c d]) := by
  obtain ⟨h1, h2, h3, h4, h5, -⟩ := fields_opcode 0xF X c d (by omega) hX hc hd
  simp only [decode, h1, h2, h3, h4, h5]
  simp

theorem decode_clear (e : Emulator) :
    decode (opcodeNNN 0 0x0E0) e =
      .ok ({ e with display := clearDisplay e.display }, [.cout "clear screen"]) := by
  obtain ⟨h1, h2⟩ := fields_opcodeNNN 0 0x0E0 (by omega) (by omega)
  simp [decode, h1, h2]

theorem decrementTimers_iterate (n : Nat) (e : Emulator) :
    ((decrementTimers^[n]) e).delay.val = e.delay.val - n ∧
    ((decrementTimers^[n]) e).sound.val = e.sound.val - n := by
  induction n generalizing e with
  | zero => exact ⟨rfl, rfl⟩
  | succ n ih =>
    rw [Function.iterate_succ_apply]
    obtain ⟨h1, h2⟩ := ih (decrementTimers e)
    rw [h1, h2]
    have hd := e.delay.isLt
    have hs := e.sound.isLt
    constructor
    · simp only [decrementTimers]
      split <;> (try simp only [intToU8_val]) <;> omega
    · simp only [decrementTimers]
      split <;> (try simp only [intToU8_val]) <;> omega

theorem storeDecimal_ok (m : Nat → U8) (I : Nat) (vx : U8) (h : I + 2 < 4096) :
    storeDecimal m I vx =
      .ok (assign (assign (assign m I (toU8 (vx.val / 100))) (I + 1)
        (toU8 (vx.val / 10 % 10))) (I + 2) (toU8 (vx.val % 10))) := by
  simp only [storeDecimal, writeMem, MEMSIZE_eq]
  rw [if_pos (by omega)]
  simp only []
  rw [if_pos (by omega)]
  simp only []
  rw [if_pos (by omega)]

theorem decode_decimal (e : Emulator) (X : Nat) (hX : X < 16) (h : e.I.val + 2 < 4096) :
    decode (opcode 0xF X 3 3) e =
      .ok ({ e with memory :=
              (assign (assign (assign e.memory e.I.val (toU8 ((e.registers X).val / 100)))
                (e.I.val + 1) (toU8 ((e.registers X).val / 10 % 10)))
                (e.I.val + 2) (toU8 ((e.registers X).val % 10))) },
           [.unrecognized 0xF X 3 3]) := by
  rw [decode_misc e X 3 3 hX (by omega) (by omega)]
  simp [decodeMisc, storeDecimal_ok _ _ _ h]

theorem fetch_ok (e : Emulator) (h : e.PC.val + 1 < 4096) :
    fetch e = .ok (toU16 ((e.memory e.PC.val).val * 0x100 + (e.memory (e.PC.val + 1)).val),
      { e with PC := toU16 (e.PC.val + 2) }) := by
  have h1 : e.PC.val < MEMSIZE := by simp only [MEMSIZE]; omega
  have h2 : e.PC.val + 1 < MEMSIZE := by simp only [MEMSIZE]; omega
  simp only [fetch, readMem, h1, h2, if_true]

theorem fetchMany_spec :
    ∀ (n : Nat) (e : Emulator), e.PC.val + 2 * n ≤ 4096 →
      ∃ ws e', fetchMany n e = .ok (ws, e') ∧ ws.length = n ∧
        (∀ k, k < n → (ws.getD k (toU16 0)).val =
          (e.memory (e.PC.val + 2 * k)).val * 256 + (e.memory (e.PC.val + 2 * k + 1)).val) ∧
        e'.PC.val = e.PC.val + 2 * n ∧ e'.memory = e.memory := by
  intro n
  induction n with
  | zero =>
    intro e _
    exact ⟨[], e, rfl, rfl, fun k hk => absurd hk (by omega), rfl, rfl⟩
  | succ n ih =>
    intro e h
    have hpc : (toU16 (e.PC.val + 2)).val = e.PC.val + 2 := by
      simp only [toU16_val]
      omega
    obtain ⟨ws, e', hws, hlen, hk, hPC, hmem⟩ := ih { e with PC := toU16 (e.PC.val + 2) }
      (by rw [hpc]; omega)
    dsimp only at hk hPC hmem
    refine ⟨toU16 ((e.memory e.PC.val).val * 0x100 + (e.memory (e.PC.val + 1)).val) :: ws, e',
      ?_, ?_, ?_, ?_, hmem⟩
    · simp only [fetchMany, fetch_ok e (by omega), hws]
    · simp [hlen]
    · intro k hk'
      cases k with
      | zero =>
        have b1 := (e.memory e.PC.val).isLt
        have b2 := (e.memory (e.PC.val + 1)).isLt
        simp only [List.getD_cons_zero, toU16_val, Nat.mul_zero, Nat.add_zero]
        omega
      | succ k =>
        rw [List.getD_cons_succ, hk k (by omega)]
        simp only [hpc]
        have e1 : e.PC.val + 2 + 2 * k = e.PC.val + 2 * (k + 1) := by omega
        rw [e1]
    · rw [hPC, hpc]
      omega

theorem decode_getKey (e : Emulator) (X : Nat) (hX : X < 16) :
    decode (opcode 0xF X 0 0xA) e =
      .ok (if e.keyPress.val > 0x0F then { e with PC := intToU16 ((e.PC.val : Int) - 2) }
           else e,
           [.unrecognized 0xF X 0 0xA]) := by
  rw [decode_misc e X 0 0xA hX (by omega) (by omega)]
  simp [decodeMisc]

theorem decode_addIndex (e : Emulator) (X : Nat) (hX : X < 16) :
    decode (opcode 0xF X 1 0xE) e =
      .ok ({ e with
              registers := (if e.I.val + (e.registers X).val > 255
                then assign e.registers 0xF (toU8 1) else e.registers)
              I := toU16 (e.I.val + (e.registers X).val) },
           [.unrecognized 0xF X 1 0xE]) := by
  rw [decode_misc e X 1 0xE hX (by omega) (by omega)]
  simp [decodeMisc]

theorem misc_logs_unrecognized (e e' : Emulator) (out : List Output) (X c d : Nat)
    (hX : X < 16) (hc : c < 16) (hd : d < 16)
    (h : decode (opcode 0xF X c d) e = .ok (e', out)) :
    Output.unrecognized 0xF X c d ∈ out := by
  rw [decode_misc e X c d hX hc hd] at h
  cases hm : decodeMisc X c d (c * 16 + d) e with
  | error u => rw [hm] at h; simp at h
  | ok r =>
    obtain ⟨e1, out1⟩ := r
    rw [hm] at h
    simp only [Except.ok.injEq, Prod.mk.injEq] at h
    rw [← h.2]
    simp

theorem decode_jump (e : Emulator) (nnn : Nat) (hn : nnn < 4096) :
    decode (opcodeNNN 1 nnn) e =
      .ok ({ e with PC := toU16 nnn },
           [.cout ("jump to " ++ String.mk (Nat.toDigits 16 nnn))]) := by
  obtain ⟨h1, h2⟩ := fields_opcodeNNN 1 nnn (by omega) hn
  simp [decode, h1, h2]

theorem decode_jumpOffset (e : Emulator) (nnn : Nat) (hn : nnn < 4096) :
    decode (opcodeNNN 0xB nnn) e =
      .ok ({ e with PC := toU16 nnn }, [.cout "jump with offset"]) := by
  obtain ⟨h1, h2⟩ := fields_opcodeNNN 0xB nnn (by omega) hn
  simp [decode, h1, h2]

theorem decode_fontChar (e : Emulator) (X : Nat) (hX : X < 16) :
    decode (opcode 0xF X 2 9) e =
      .ok ({ e with I := toU16 (0x50 + (e.registers X).val * 5) },
           [.unrecognized 0xF X 2 9]) := by
  rw [decode_misc e X 2 9 hX (by omega) (by omega)]
  simp [decodeMisc]

/-! ## Lemmas on the parity of PC -/

/-- C1: for every machine state with PC <= 4094, `fetch` returns
`memory[PC]*256 + memory[PC+1]`, leaves PC equal to the old PC + 2, and changes
no other part of the state. -/
theorem fetch_spec (e : Emulator) (h : e.PC.val ≤ 4094) :
    ∃ instruct e', fetch e = .ok (instruct, e') ∧
      instruct.val = (e.memory e.PC.val).val * 256 + (e.memory (e.PC.val + 1)).val ∧
      e'.PC.val = e.PC.val + 2 ∧
      e'.memory = e.memory ∧ e'.registers = e.registers ∧ e'.I = e.I ∧
      e'.stack = e.stack ∧ e'.delay = e.delay ∧ e'.sound = e.sound ∧
      e'.display = e.display ∧ e'.keyPress = e.keyPress ∧ e'.gen = e.gen := by
  have h1 : e.PC.val < MEMSIZE := by simp only [MEMSIZE]; omega
  have h2 : e.PC.val + 1 < MEMSIZE := by simp only [MEMSIZE]; omega
  have hb1 := (e.memory e.PC.val).isLt
  have hb2 := (e.memory (e.PC.val + 1)).isLt
  refine ⟨toU16 ((e.memory e.PC.val).val * 0x100 + (e.memory (e.PC.val + 1)).val),
    { e with PC := toU16 (e.PC.val + 2) }, ?_, ?_, ?_,
    rfl, rfl, rfl, rfl, rfl, rfl, rfl, rfl, rfl⟩
  · simp only [fetch, readMem, h1, h2, if_true]
  · simp only [toU16]
    omega
  · simp only [toU16]
    omega

/-- C1, concrete instance: `fetch` on the sample state, whose PC is 0x200. -/
theorem fetch_spec_witness :
    sampleState.PC.val ≤ 4094 ∧
    ∃ instruct e', fetch sampleState = .ok (instruct, e') ∧
      instruct.val = (sampleState.memory sampleState.PC.val).val * 256
        + (sampleState.memory (sampleState.PC.val + 1)).val ∧
      e'.PC.val = sampleState.PC.val + 2 ∧
      e'.memory = sampleState.memory ∧ e'.registers = sampleState.registers ∧
      e'.I = sampleState.I ∧ e'.stack = sampleState.stack ∧ e'.delay = sampleState.delay ∧
      e'.sound = sampleState.sound ∧ e'.display = sampleState.display ∧
      e'.keyPress = sampleState.keyPress ∧ e'.gen = sampleState.gen :=
  ⟨by decide, fetch_spec sampleState (by decide)⟩

/-- C2: for every register file and every X, Y in 0..15, `decode` of 8XY4 leaves
VF = 1 if the sum of the old VX and VY exceeds 255 and VF = 0 otherwise (also
when X or Y is 0xF), leaves VX = (VX + VY) mod 256 when X is not 0xF, and leaves
every other register unchanged; and three cycles of the program
`60 0A 61 05 80 14` on a freshly constructed machine give V0 = 15 and VF = 0. -/
theorem add_spec :
    (∀ (e : Emulator) (X Y : Nat), X < 16 → Y < 16 →
      ∃ e' out, decode (opcode 8 X Y 4) e = .ok (e', out) ∧
        (e'.registers 0xF).val
          = (if (e.registers X).val + (e.registers Y).val > 255 then 1 else 0) ∧
        (X ≠ 0xF →
          (e'.registers X).val = ((e.registers X).val + (e.registers Y).val) % 256) ∧
        (∀ r, r ≠ X → r ≠ 0xF → e'.registers r = e.registers r)) ∧
    (∀ (memory0 gen : Nat → U8),
      (cycles 3 (load (some addProgram) (Emulator.new memory0 gen)).2.1).map
          (fun e3 => ((e3.registers 0).val, (e3.registers 0xF).val)) = .ok (15, 0)) := by
  constructor
  · intro e X Y hX hY
    refine ⟨_, _, decode_arith e X Y 4 hX hY (by omega), ?_, ?_, ?_⟩
    · by_cases h : (e.registers X).val + (e.registers Y).val > 255 <;>
        simp [decodeArith, h]
    · intro hXF
      by_cases h : (e.registers X).val + (e.registers Y).val > 255 <;>
        simp [decodeArith, h, assign_other _ _ hXF]
    · intro r hr hrF
      by_cases h : (e.registers X).val + (e.registers Y).val > 255 <;>
        simp [decodeArith, h, assign_other _ _ hr, assign_other _ _ hrF]
  · intro memory0 gen
    obtain ⟨e0, he0⟩ : ∃ e0, e0 = (load (some addProgram) (Emulator.new memory0 gen)).2.1 :=
      ⟨_, rfl⟩
    rw [← he0]
    have hPC : e0.PC.val = 0x200 := by subst he0; rfl
    have hreg : e0.registers = fun _ => toU8 0 := by subst he0; rfl
    have hm : ∀ k, k < 6 → e0.memory (0x200 + k) = addProgram.getD k (toU8 0) := by
      intro k hk
      subst he0
      simp [load, addProgram, Emulator.new]
      omega
    have hm0 := hm 0 (by omega)
    have hm1 := hm 1 (by omega)
    have hm2 := hm 2 (by omega)
    have hm3 := hm 3 (by omega)
    have hm4 := hm 4 (by omega)
    have hm5 := hm 5 (by omega)
    simp only [addProgram, List.map, List.getD_cons_zero, List.getD_cons_succ,
      Nat.reduceAdd] at hm0 hm1 hm2 hm3 hm4 hm5
    clear hm he0
    have c1 := cycle_eq e0 (opcode 6 0 0 10) (by simp [hPC])
      (by simp [hPC, hm0, hm1, opcode])
    rw [decode_set _ 0 0 10 (by omega) (by omega) (by omega)] at c1
    dsimp only at c1
    have c2 := cycle_eq
      { e0 with PC := toU16 (e0.PC.val + 2), registers := assign e0.registers 0 (toU8 (0 * 16 + 10)) }
      (opcode 6 1 0 5) (by simp [hPC]) (by simp [hPC, hm2, hm3, opcode])
    rw [decode_set _ 1 0 5 (by omega) (by omega) (by omega)] at c2
    dsimp only at c2
    have c3 := cycle_eq
      { e0 with
        PC := toU16 ((toU16 (e0.PC.val + 2)).val + 2),
        registers := assign (assign e0.registers 0 (toU8 (0 * 16 + 10))) 1 (toU8 (0 * 16 + 5)) }
      (opcode 8 0 1 4) (by simp [hPC]) (by simp [hPC, hm4, hm5, opcode])
    rw [decode_arith _ 0 1 4 (by omega) (by omega) (by omega)] at c3
    dsimp only at c3
    simp only [cycles, c1, c2, c3]
    simp [Except.map, decodeArith, assign_apply, hreg]

/-- C2, concrete instance: `8014` on the sample state, where V0 = 150 and V1 = 187. -/
theorem add_spec_witness :
    (0 < 16 ∧ 1 < 16) ∧
    ∃ e' out, decode (opcode 8 0 1 4) sampleState = .ok (e', out) ∧
      (e'.registers 0xF).val
        = (if (sampleState.registers 0).val + (sampleState.registers 1).val > 255
            then 1 else 0) ∧
      (0 ≠ 0xF →
        (e'.registers 0).val
          = ((sampleState.registers 0).val + (sampleState.registers 1).val) % 256) ∧
      (∀ r, r ≠ 0 → r ≠ 0xF → e'.registers r = sampleState.registers r) :=
  ⟨by decide, add_spec.1 sampleState 0 1 (by decide) (by decide)⟩

/-- C3: for every register file and every X, Y in 0..15, `decode` of 8XY5 leaves
VF = 1 if and only if the old VX is greater than or equal to the old VY, VF = 0
otherwise (also when X or Y is 0xF), and leaves VX = (VX - VY) mod 256 when X is
not 0xF. -/
theorem sub_spec (e : Emulator) (X Y : Nat) (hX : X < 16) (hY : Y < 16) :
    ∃ e' out, decode (opcode 8 X Y 5) e = .ok (e', out) ∧
      ((e'.registers 0xF).val = 1 ↔ (e.registers X).val ≥ (e.registers Y).val) ∧
      (¬ (e.registers X).val ≥ (e.registers Y).val → (e'.registers 0xF).val = 0) ∧
      (X ≠ 0xF →
        ((e'.registers X).val : Int)
          = (((e.registers X).val : Int) - ((e.registers Y).val : Int)) % 256) := by
  refine ⟨_, _, decode_arith e X Y 5 hX hY (by omega), ?_, ?_, ?_⟩
  · by_cases h : (e.registers Y).val ≤ (e.registers X).val <;>
      simp [decodeArith, h]
  · intro h
    simp [decodeArith, h]
  · intro hXF
    by_cases h : (e.registers Y).val ≤ (e.registers X).val <;>
      simp [decodeArith, h, assign_other _ _ hXF] <;> omega

/-- C3, concrete instance: `8015` on the sample state, where V0 = 150 and V1 = 187. -/
theorem sub_spec_witness :
    (0 < 16 ∧ 1 < 16) ∧
    ∃ e' out, decode (opcode 8 0 1 5) sampleState = .ok (e', out) ∧
      ((e'.registers 0xF).val = 1 ↔
        (sampleState.registers 0).val ≥ (sampleState.registers 1).val) ∧
      (¬ (sampleState.registers 0).val ≥ (sampleState.registers 1).val →
        (e'.registers 0xF).val = 0) ∧
      (0 ≠ 0xF →
        ((e'.registers 0).val : Int)
          = (((sampleState.registers 0).val : Int)
              - ((sampleState.registers 1).val : Int)) % 256) :=
  ⟨by decide, sub_spec sampleState 0 1 (by decide) (by decide)⟩

/-- C4: with `newShift = false`, for every register file and every X, Y in 0..15,
`decode` of 8XY6 leaves VF equal to bit 0 of the old VY and, for X not 0xF,
VX = VY >> 1; `decode` of 8XYE leaves VF equal to bit 7 of the old VY and, for X
not 0xF, VX = (VY << 1) mod 256.  The resulting VX and VF are the same from any
other state with the same VY: the old VX has no influence. -/
theorem shift_spec (e : Emulator) (X Y : Nat) (hX : X < 16) (hY : Y < 16) :
    (∃ e' out, decode (opcode 8 X Y 6) e = .ok (e', out) ∧
      (e'.registers 0xF).val = (Nat.testBit (e.registers Y).val 0).toNat ∧
      (X ≠ 0xF → (e'.registers X).val = (e.registers Y).val / 2) ∧
      (∀ e2 : Emulator, e2.registers Y = e.registers Y →
        ∃ e2' out2, decode (opcode 8 X Y 6) e2 = .ok (e2', out2) ∧
          e2'.registers 0xF = e'.registers 0xF ∧ e2'.registers X = e'.registers X)) ∧
    (∃ e' out, decode (opcode 8 X Y 0xE) e = .ok (e', out) ∧
      (e'.registers 0xF).val = (Nat.testBit (e.registers Y).val 7).toNat ∧
      (X ≠ 0xF → (e'.registers X).val = ((e.registers Y).val * 2) % 256) ∧
      (∀ e2 : Emulator, e2.registers Y = e.registers Y →
        ∃ e2' out2, decode (opcode 8 X Y 0xE) e2 = .ok (e2', out2) ∧
          e2'.registers 0xF = e'.registers 0xF ∧ e2'.registers X = e'.registers X)) := by
  have hb := (e.registers Y).isLt
  constructor
  · refine ⟨_, _, decode_arith e X Y 6 hX hY (by omega), ?_, ?_, ?_⟩
    · simp [decodeArith]
      rcases Nat.mod_two_eq_zero_or_one (e.registers Y).val with h | h <;> simp [h]
    · intro hXF
      simp [decodeArith, assign_other _ _ hXF, Nat.shiftRight_eq_div_pow]
      omega
    · intro e2 h2
      refine ⟨_, _, decode_arith e2 X Y 6 hX hY (by omega), ?_, ?_⟩
      · simp [decodeArith, h2]
      · simp [decodeArith, h2, assign_apply]
  · refine ⟨_, _, decode_arith e X Y 0xE hX hY (by omega), ?_, ?_, ?_⟩
    · simp [decodeArith, land_128_testBit, bool_toNat_mod]
    · intro hXF
      simp [decodeArith, assign_other _ _ hXF, Nat.shiftLeft_eq]
    · intro e2 h2
      refine ⟨_, _, decode_arith e2 X Y 0xE hX hY (by omega), ?_, ?_⟩
      · simp [decodeArith, h2]
      · simp [decodeArith, h2, assign_apply]

/-- C4, concrete instance: `8016` and `801E` on the sample state, where V1 = 187. -/
theorem shift_spec_witness :
    (0 < 16 ∧ 1 < 16) ∧
    (∃ e' out, decode (opcode 8 0 1 6) sampleState = .ok (e', out) ∧
      (e'.registers 0xF).val = (Nat.testBit (sampleState.registers 1).val 0).toNat ∧
      (0 ≠ 0xF → (e'.registers 0).val = (sampleState.registers 1).val / 2) ∧
      (∀ e2 : Emulator, e2.registers 1 = sampleState.registers 1 →
        ∃ e2' out2, decode (opcode 8 0 1 6) e2 = .ok (e2', out2) ∧
          e2'.registers 0xF = e'.registers 0xF ∧ e2'.registers 0 = e'.registers 0)) ∧
    (∃ e' out, decode (opcode 8 0 1 0xE) sampleState = .ok (e', out) ∧
      (e'.registers 0xF).val = (Nat.testBit (sampleState.registers 1).val 7).toNat ∧
      (0 ≠ 0xF → (e'.registers 0).val = ((sampleState.registers 1).val * 2) % 256) ∧
      (∀ e2 : Emulator, e2.registers 1 = sampleState.registers 1 →
        ∃ e2' out2, decode (opcode 8 0 1 0xE) e2 = .ok (e2', out2) ∧
          e2'.registers 0xF = e'.registers 0xF ∧ e2'.registers 0 = e'.registers 0)) :=
  ⟨by decide, shift_spec sampleState 0 1 (by decide) (by decide)⟩

/-- C5, at the failing input: `DF01` on a blank screen with VF = 5, V0 = 0 and
`memory[I] = 0xF0`.  The origin of the claim is `(VF mod 64, V0 mod 32) = (5, 0)`, so
cell `(5, 0)` should be set and cell `(0, 0)` left clear; `decode` resets VF before
it reads the column, draws at `(0, 0)`, and leaves cell `(0, 0)` set and cell
`(5, 0)` clear. -/
theorem draw_origin_vf_eval :
    (decode (opcode 0xD 0xF 0 1) drawState).map
        (fun r => (r.1.display (0 * 64 + 0), r.1.display (0 * 64 + 5))) = .ok (true, false) ∧
    drawState.display (0 * 64 + 0) = false ∧ drawState.display (0 * 64 + 5) = false ∧
    (drawState.registers 0xF).val % 64 = 5 ∧ (drawState.registers 0).val % 32 = 0 ∧
    (drawState.memory (drawState.I.val + 0)).val.testBit 7 = true ∧
    drawState.I.val + 1 ≤ 4096 :=
  ⟨rfl, rfl, rfl, rfl, rfl, rfl, by decide⟩

/-- C6, amended: for every state and every opcode DXYN with X and Y other than
0xF and I + N <= 4096, two executions of `decode` of that opcode in succession
(the first leaves I and memory as they were) leave the framebuffer equal to what
it was before the first. -/
theorem draw_twice_spec (e : Emulator) (X Y N : Nat) (hX : X < 15) (hY : Y < 15)
    (hN : N < 16) (hI : e.I.val + N ≤ 4096) :
    ∃ e1 out1 e2 out2, decode (opcode 0xD X Y N) e = .ok (e1, out1) ∧
      decode (opcode 0xD X Y N) e1 = .ok (e2, out2) ∧
      e1.I = e.I ∧ e1.memory = e.memory ∧ e2.display = e.display := by
  obtain ⟨e1, hd1, hp1, hr1, hm1, hI1⟩ := decode_draw_display e X Y N hX (by omega) hN hI
  obtain ⟨e2, hd2, hp2, -⟩ := decode_draw_display e1 X Y N hX (by omega) hN
    (by rw [hI1]; exact hI)
  refine ⟨e1, _, e2, _, hd1, hd2, hI1, hm1, ?_⟩
  funext p
  rw [hp2 p, hp1 p, hm1, hI1, hr1 X (by omega), hr1 Y (by omega)]
  cases e.display p <;>
    cases spriteMask e.memory e.I.val ((e.registers X).val % 64)
      ((e.registers Y).val % 32) N p <;> rfl

/-- C6, concrete instance: `D011` twice on the draw state. -/
theorem draw_twice_spec_witness :
    (0 < 15 ∧ 1 < 15 ∧ 1 < 16 ∧ drawState.I.val + 1 ≤ 4096) ∧
    ∃ e1 out1 e2 out2, decode (opcode 0xD 0 1 1) drawState = .ok (e1, out1) ∧
      decode (opcode 0xD 0 1 1) e1 = .ok (e2, out2) ∧
      e1.I = drawState.I ∧ e1.memory = drawState.memory ∧ e2.display = drawState.display :=
  ⟨by decide, draw_twice_spec drawState 0 1 1 (by decide) (by decide) (by decide) (by decide)⟩

/-- C6 as stated fails for Y = 0xF: `D0F1` twice on a blank screen with VF = 5 and
`memory[I] = 0xF0`.  The first draw is at row 5 and clears VF, the second is at
row 0, so cell `(0, 5)` stays set although I and memory are untouched. -/
theorem draw_twice_counterexample :
    ((decode (opcode 0xD 0 0xF 1) drawState).bind
        (fun r => decode (opcode 0xD 0 0xF 1) r.1)).map
      (fun r => (r.1.display (5 * 64 + 0), r.1.I.val, (r.1.memory 0x50).val))
      = .ok (true, 0x50, 0xF0) ∧
    drawState.display (5 * 64 + 0) = false ∧
    drawState.I.val = 0x50 ∧ (drawState.memory 0x50).val = 0xF0 ∧ drawState.I.val + 1 ≤ 4096 :=
  ⟨rfl, rfl, rfl, rfl, by decide⟩

/-- C7: for every state and every opcode DXYN with I + N <= 4096, after `decode`
VF is 1 if and only if some framebuffer cell that was set before the instruction
is clear after it, and VF is 0 otherwise, whatever VF held before. -/
theorem draw_collision_spec (e : Emulator) (X Y N : Nat) (hX : X < 16) (hY : Y < 16)
    (hN : N < 16) (hI : e.I.val + N ≤ 4096) :
    ∃ e' out, decode (opcode 0xD X Y N) e = .ok (e', out) ∧
      ((e'.registers 0xF).val = 1 ↔
        ∃ x y, x < 64 ∧ y < 32 ∧
          e.display (y * 64 + x) = true ∧ e'.display (y * 64 + x) = false) ∧
      (¬ (∃ x y, x < 64 ∧ y < 32 ∧
          e.display (y * 64 + x) = true ∧ e'.display (y * 64 + x) = false) →
        (e'.registers 0xF).val = 0) := by
  obtain ⟨s', hs', hp, hc, hn, -⟩ := drawRows_frame e.memory e.I.val X N 0
    ((e.registers Y).val % HEIGHT) (e.display, assign e.registers 0xF (toU8 0))
    (Nat.mod_lt _ (by decide)) (by omega)
  have hcells := collides_cells e.display s'.1 (fun p hp' => hp p (Or.inr hp'))
  refine ⟨{ e with display := s'.1, registers := s'.2 }, [.cout "draw sprite"], ?_, ?_, ?_⟩
  · rw [decode_draw e X Y N hX hY hN]
    simp only [decodeDraw, hs']
  · show (s'.2 0xF).val = 1 ↔ _
    rw [← hcells]
    constructor
    · intro h1
      by_contra hcol
      have h0 := hn hcol
      rw [h0] at h1
      simp at h1
    · intro hcol
      rw [hc hcol]
      rfl
  · show _ → (s'.2 0xF).val = 0
    rw [← hcells]
    intro hcol
    rw [hn hcol]
    simp

/-- C7, concrete instance: `D015` on the sample state. -/
theorem draw_collision_spec_witness :
    (0 < 16 ∧ 1 < 16 ∧ 5 < 16 ∧ sampleState.I.val + 5 ≤ 4096) ∧
    ∃ e' out, decode (opcode 0xD 0 1 5) sampleState = .ok (e', out) ∧
      ((e'.registers 0xF).val = 1 ↔
        ∃ x y, x < 64 ∧ y < 32 ∧
          sampleState.display (y * 64 + x) = true ∧ e'.display (y * 64 + x) = false) ∧
      (¬ (∃ x y, x < 64 ∧ y < 32 ∧
          sampleState.display (y * 64 + x) = true ∧ e'.display (y * 64 + x) = false) →
        (e'.registers 0xF).val = 0) :=
  ⟨by decide,
   draw_collision_spec sampleState 0 1 5 (by decide) (by decide) (by decide) (by decide)⟩

/-- C8, amended: `decode` of 0x00EE on a machine whose call stack is not empty
sets PC to the top entry, removes that entry and changes nothing else; on an
empty call stack it makes no check and reports no fault: `top()` and `pop()` are
called on the empty `std::stack`, which C++ leaves undefined, so there is no
result state at all. -/
theorem return_spec :
    (∀ (e : Emulator) (top : U16) (rest : List U16), e.stack = top :: rest →
      decode (opcodeNNN 0 0x0EE) e =
        .ok ({ e with PC := top, stack := rest }, [.cout "return from subroutine"])) ∧
    (∀ e : Emulator, e.stack = [] →
      decode (opcodeNNN 0 0x0EE) e = .error .emptyStack) := by
  constructor
  · intro e top rest h
    rw [decode_return, h]
  · intro e h
    rw [decode_return, h]

/-- C8, concrete instance: `00EE` on the sample state with the one-entry stack
`[0x204]`, and on the sample state itself, whose stack is empty. -/
theorem return_spec_witness :
    (∃ e : Emulator, e.stack = [toU16 0x204] ∧
      decode (opcodeNNN 0 0x0EE) e =
        .ok ({ e with PC := toU16 0x204, stack := [] }, [.cout "return from subroutine"])) ∧
    (sampleState.stack = [] ∧
      decode (opcodeNNN 0 0x0EE) sampleState = .error .emptyStack) :=
  ⟨⟨{ sampleState with stack := [toU16 0x204] }, rfl,
      return_spec.1 { sampleState with stack := [toU16 0x204] } (toU16 0x204) [] rfl⟩,
   rfl, return_spec.2 sampleState rfl⟩

/-- C8 as stated fails on a freshly constructed machine: `decode` of 0x00EE has no
defined result there, so it does not return the unchanged state together with a
reported fault. -/
theorem return_empty_counterexample :
    (Emulator.new (fun _ => toU8 0) (fun _ => toU8 0)).stack = [] ∧
    decode (opcodeNNN 0 0x0EE) (Emulator.new (fun _ => toU8 0) (fun _ => toU8 0))
      = .error .emptyStack ∧
    ¬ ∃ out, decode (opcodeNNN 0 0x0EE) (Emulator.new (fun _ => toU8 0) (fun _ => toU8 0))
      = .ok (Emulator.new (fun _ => toU8 0) (fun _ => toU8 0), out) := by
  have h : decode (opcodeNNN 0 0x0EE) (Emulator.new (fun _ => toU8 0) (fun _ => toU8 0))
      = .error .emptyStack := by
    rw [decode_return]
    rfl
  refine ⟨rfl, h, ?_⟩
  rintro ⟨out, hout⟩
  rw [h] at hout
  exact absurd hout (by simp)

/-- C9: for every state and every NNN, `decode` of 2NNN sets PC to NNN and pushes
the old PC on top of the unchanged call stack, and `decode` of 00EE executed next
gives back the state before the call (PC and call stack included); two nested
calls return in last-in-first-out order. -/
theorem call_return_spec (e : Emulator) (nnn : Nat) (hn : nnn < 4096) :
    (∃ e1 out1, decode (opcodeNNN 2 nnn) e = .ok (e1, out1) ∧
      e1.PC.val = nnn ∧ e1.stack = e.PC :: e.stack ∧
      ∃ out2, decode (opcodeNNN 0 0x0EE) e1 = .ok (e, out2)) ∧
    (∀ mmm, mmm < 4096 →
      ∃ e1 out1 e2 out2 e3 out3 e4 out4,
        decode (opcodeNNN 2 nnn) e = .ok (e1, out1) ∧
        decode (opcodeNNN 2 mmm) e1 = .ok (e2, out2) ∧
        decode (opcodeNNN 0 0x0EE) e2 = .ok (e3, out3) ∧
        decode (opcodeNNN 0 0x0EE) e3 = .ok (e4, out4) ∧
        e2.stack = e1.PC :: e.PC :: e.stack ∧
        e3.PC = e1.PC ∧ e3.stack = e.PC :: e.stack ∧
        e4.PC = e.PC ∧ e4.stack = e.stack) := by
  constructor
  · refine ⟨_, _, decode_call e nnn hn, ?_, rfl, [.cout "return from subroutine"], ?_⟩
    · simp only [toU16_val]
      omega
    · rw [decode_return]
  · intro mmm hm
    refine ⟨{ e with stack := e.PC :: e.stack, PC := toU16 nnn }, [.cout "execute subroutine"],
      { e with stack := toU16 nnn :: e.PC :: e.stack, PC := toU16 mmm },
      [.cout "execute subroutine"],
      { e with stack := e.PC :: e.stack, PC := toU16 nnn }, [.cout "return from subroutine"],
      e, [.cout "return from subroutine"],
      decode_call e nnn hn, decode_call _ mmm hm, ?_, ?_, rfl, rfl, rfl, rfl, rfl⟩
    · rw [decode_return]
    · rw [decode_return]

/-- C9, concrete instance: call `0x2F0` from the sample state, nested call `0x400`. -/
theorem call_return_spec_witness :
    (0x2F0 < 4096 ∧ 0x400 < 4096) ∧
    (∃ e1 out1, decode (opcodeNNN 2 0x2F0) sampleState = .ok (e1, out1) ∧
      e1.PC.val = 0x2F0 ∧ e1.stack = sampleState.PC :: sampleState.stack ∧
      ∃ out2, decode (opcodeNNN 0 0x0EE) e1 = .ok (sampleState, out2)) ∧
    ∃ e1 out1 e2 out2 e3 out3 e4 out4,
      decode (opcodeNNN 2 0x2F0) sampleState = .ok (e1, out1) ∧
      decode (opcodeNNN 2 0x400) e1 = .ok (e2, out2) ∧
      decode (opcodeNNN 0 0x0EE) e2 = .ok (e3, out3) ∧
      decode (opcodeNNN 0 0x0EE) e3 = .ok (e4, out4) ∧
      e2.stack = e1.PC :: sampleState.PC :: sampleState.stack ∧
      e3.PC = e1.PC ∧ e3.stack = sampleState.PC :: sampleState.stack ∧
      e4.PC = sampleState.PC ∧ e4.stack = sampleState.stack :=
  ⟨by decide, (call_return_spec sampleState 0x2F0 (by decide)).1,
   (call_return_spec sampleState 0x2F0 (by decide)).2 0x400 (by decide)⟩

/-- C10, amended: for every X in 0..15 and every I with I + X + 1 <= 4096, `decode`
of FX55 leaves I = I + X + 1 (`newMemory = false`); if then the registers are
replaced by arbitrary values and I is set back to its value before the store,
`decode` of FX65 with the same X restores V0..VX to their values before the
store. -/
theorem store_load_spec (e : Emulator) (X : Nat) (hX : X < 16)
    (hI : e.I.val + X + 1 ≤ 4096) (R' : Nat → U8) :
    ∃ e1 out1, decode (opcode 0xF X 5 5) e = .ok (e1, out1) ∧
      e1.I.val = e.I.val + X + 1 ∧
      ∃ e2 out2,
        decode (opcode 0xF X 6 5) { e1 with registers := R', I := e.I } = .ok (e2, out2) ∧
        ∀ r, r ≤ X → e2.registers r = e.registers r := by
  obtain ⟨m', hm', hmspec⟩ := storeRegisters_spec e.registers e.I.val (X + 1) 0 e.memory
    (by omega)
  obtain ⟨R2, hR2, hRspec⟩ := loadRegisters_spec m' e.I.val (X + 1) 0 R' (by omega)
  refine ⟨{ e with memory := m', I := toU16 (e.I.val + X + 1) }, [.unrecognized 0xF X 5 5],
    ?_, ?_, { e with memory := m', registers := R2, I := toU16 (e.I.val + X + 1) },
    [.unrecognized 0xF X 6 5], ?_, ?_⟩
  · rw [decode_store e X hX, hm']
  · simp only [toU16_val]
    omega
  · rw [decode_load _ X hX]
    simp only [hR2]
  · intro r hr
    show R2 r = _
    rw [hRspec r, if_pos (by omega), hmspec, if_pos (by omega)]
    congr 1
    omega

/-- C10, concrete instance: X = 3 and I = 0x300 on the store state; I is 0x304
after the store, and the load from I = 0x300 restores V0..V3. -/
theorem store_load_spec_witness :
    (3 < 16 ∧ storeState.I.val + 3 + 1 ≤ 4096) ∧
    ∃ e1 out1, decode (opcode 0xF 3 5 5) storeState = .ok (e1, out1) ∧
      e1.I.val = storeState.I.val + 3 + 1 ∧
      ∃ e2 out2,
        decode (opcode 0xF 3 6 5)
          { e1 with registers := fun _ => toU8 0, I := storeState.I } = .ok (e2, out2) ∧
        ∀ r, r ≤ 3 → e2.registers r = storeState.registers r :=
  ⟨by decide, store_load_spec storeState 3 (by decide) (by decide) (fun _ => toU8 0)⟩

/-- C10 as stated fails at X = 3, I = 0x300: the store leaves I = 0x304, so a load
that follows with I untouched reads `memory[0x304 ..]`, not the stored block, and
V0 becomes 28 instead of the stored 150. -/
theorem store_load_counterexample :
    storeState.I.val = 0x300 ∧ (storeState.registers 0).val = 150 ∧
    (decode (opcode 0xF 3 5 5) storeState).map (fun r => r.1.I.val) = .ok 0x304 ∧
    ((decode (opcode 0xF 3 5 5) storeState).bind
        (fun r => decode (opcode 0xF 3 6 5) { r.1 with registers := fun _ => toU8 0 })).map
      (fun r => (r.1.registers 0).val) = .ok 28 :=
  ⟨rfl, rfl, rfl, rfl⟩

/-- C11, at the failing input: `F30A` with key 7 pressed and V3 = 5.  The claim
makes V3 = 7; `decode` leaves PC as it was (a key is pressed) and never writes the
key to a register, so V3 is still 5. -/
theorem getKey_eval :
    keyState.keyPress.val = 7 ∧ (keyState.registers 3).val = 5 ∧
    keyState.PC.val = 0x200 ∧
    (decode (opcode 0xF 3 0 0xA) keyState).map
      (fun r => ((r.1.registers 3).val, r.1.PC.val)) = .ok (5, 0x200) :=
  ⟨rfl, rfl, rfl, rfl⟩

/-- C12, at the failing input: `F01E` with I = 0x10, V0 = 2 and VF = 1.  The sum 0x12
does not exceed 255, so the claim makes VF = 0; `decode` writes VF only when the
sum exceeds 255, and VF is still 1. -/
theorem addIndex_eval :
    flagState.I.val = 0x10 ∧ (flagState.registers 0).val = 2 ∧
    (flagState.registers 0xF).val = 1 ∧
    (decode (opcode 0xF 0 1 0xE) flagState).map
      (fun r => (r.1.I.val, (r.1.registers 0xF).val)) = .ok (0x12, 1) :=
  ⟨rfl, rfl, rfl, rfl⟩

/-- C13, at the failing inputs: the defined opcode `F007` logs the
unrecognized-instruction line (`case 0xF` has no `break` and runs into the outer
`default`), the undefined `F0FF` logs two lines (the first from the inner `default`,
where `first` names the local of `case 0x33`, which has no value yet, so that only
its X, Y and N are determined), and the undefined `8008` and `E000` log nothing (the inner switches of `case 0x8` and `case 0xE` have no `default`);
the undefined `0123` logs it once, as the claim says. -/
theorem unrecognized_eval :
    (decode (opcode 0xF 0 0 7) sampleState).map (fun r => r.2)
      = .ok [.unrecognized 0xF 0 0 7] ∧
    (decode (opcode 0xF 0 0xF 0xF) sampleState).map (fun r => r.2)
      = .ok [.unrecognizedShadowed 0 0xF 0xF, .unrecognized 0xF 0 0xF 0xF] ∧
    (decode (opcode 8 0 0 8) sampleState).map (fun r => r.2) = .ok [] ∧
    (decode (opcode 0xE 0 0 0) sampleState).map (fun r => r.2) = .ok [] ∧
    (decode (opcode 0 1 2 3) sampleState).map (fun r => r.2) = .ok [.unrecognized 0 1 2 3] :=
  ⟨rfl, rfl, rfl, rfl, rfl⟩

/-- C14, amended: for every state with PC >= 4095, `fetch` makes no bounds check
and reports no fault: it reads `memory` at an index of 4096 or more (`memory[PC]`
when PC >= 4096, else `memory[PC + 1]`), outside the array, which C++ leaves
undefined, so there is no result state at all. -/
theorem fetch_out_of_range (e : Emulator) (h : 4095 ≤ e.PC.val) :
    ∃ a, 4096 ≤ a ∧ (a = e.PC.val ∨ a = e.PC.val + 1) ∧
      fetch e = .error (.memoryOutOfRange a) := by
  by_cases h1 : e.PC.val < 4096
  · refine ⟨e.PC.val + 1, by omega, Or.inr rfl, ?_⟩
    have h2 : ¬ e.PC.val + 1 < 4096 := by omega
    simp only [fetch, readMem, MEMSIZE_eq, h1, h2, if_true, if_false]
  · refine ⟨e.PC.val, by omega, Or.inl rfl, ?_⟩
    simp only [fetch, readMem, MEMSIZE_eq, h1, if_false]

/-- C14, concrete instance: `fetch` on the sample state with PC = 4095. -/
theorem fetch_out_of_range_witness :
    4095 ≤ endState.PC.val ∧
    ∃ a, 4096 ≤ a ∧ (a = endState.PC.val ∨ a = endState.PC.val + 1) ∧
      fetch endState = .error (.memoryOutOfRange a) :=
  ⟨by decide, fetch_out_of_range endState (by decide)⟩

/-- C14 as stated fails at PC = 4095: `fetch` reads `memory[4096]`, and has no
result in which a fault is reported and PC is unchanged. -/
theorem fetch_end_counterexample :
    endState.PC.val = 4095 ∧ fetch endState = .error (.memoryOutOfRange 4096) ∧
    ¬ ∃ w e', fetch endState = .ok (w, e') := by
  have h : fetch endState = .error (.memoryOutOfRange 4096) := rfl
  refine ⟨rfl, h, ?_⟩
  rintro ⟨w, e', hw⟩
  rw [h] at hw
  exact absurd hw (by simp)

/-- C15: for every byte sequence b of even length N <= 3584, after `load` of b on a
machine with PC = 0x200, N/2 calls of `fetch` in a row return, for k = 0 .. N/2 - 1,
the opcode b[2k]*256 + b[2k+1] and leave PC = 0x200 + N; a `load` of more than
3584 bytes returns false and leaves the state, memory included, unchanged. -/
theorem load_fetch_spec :
    (∀ (e : Emulator) (b : List U8), e.PC.val = 0x200 → b.length % 2 = 0 →
      b.length ≤ 3584 →
      (load (some b) e).1 = true ∧
      ∃ ws e', fetchMany (b.length / 2) (load (some b) e).2.1 = .ok (ws, e') ∧
        ws.length = b.length / 2 ∧
        (∀ k, k < b.length / 2 → (ws.getD k (toU16 0)).val =
          (b.getD (2 * k) (toU8 0)).val * 256 + (b.getD (2 * k + 1) (toU8 0)).val) ∧
        e'.PC.val = 0x200 + b.length) ∧
    (∀ (e : Emulator) (b : List U8), b.length > 3584 →
      (load (some b) e).1 = false ∧ (load (some b) e).2.1 = e) := by
  constructor
  · intro e b hPC heven hlen
    have hl : ¬ b.length > 4096 - 0x200 := by omega
    have hload : load (some b) e = (true, { e with memory := (fun a =>
        if 0x200 ≤ a ∧ a < 0x200 + b.length then b.getD (a - 0x200) (toU8 0)
        else e.memory a) }, []) := by
      simp only [load, hl, if_false]
    rw [hload]
    refine ⟨rfl, ?_⟩
    obtain ⟨ws, e', hws, hwl, hk, hPC', -⟩ := fetchMany_spec (b.length / 2)
      { e with memory := (fun a =>
        if 0x200 ≤ a ∧ a < 0x200 + b.length then b.getD (a - 0x200) (toU8 0)
        else e.memory a) } (by dsimp only; omega)
    refine ⟨ws, e', hws, hwl, ?_, ?_⟩
    · intro k hk'
      rw [hk k hk']
      dsimp only
      rw [hPC, if_pos (by omega), if_pos (by omega)]
      have e1 : 0x200 + 2 * k - 0x200 = 2 * k := by omega
      have e2 : 0x200 + 2 * k + 1 - 0x200 = 2 * k + 1 := by omega
      rw [e1, e2]
    · rw [hPC']
      dsimp only
      omega
  · intro e b hlen
    have hl : b.length > 4096 - 0x200 := by omega
    simp only [load, hl, if_true, and_self]

/-- C15, concrete instance: the six bytes of `addProgram` on the sample state, and
a file of 3585 bytes. -/
theorem load_fetch_spec_witness :
    (sampleState.PC.val = 0x200 ∧ addProgram.length % 2 = 0 ∧ addProgram.length ≤ 3584 ∧
      (List.replicate 3585 (toU8 0)).length > 3584) ∧
    ((load (some addProgram) sampleState).1 = true ∧
      ∃ ws e', fetchMany (addProgram.length / 2) (load (some addProgram) sampleState).2.1
          = .ok (ws, e') ∧
        ws.length = addProgram.length / 2 ∧
        (∀ k, k < addProgram.length / 2 → (ws.getD k (toU16 0)).val =
          (addProgram.getD (2 * k) (toU8 0)).val * 256
            + (addProgram.getD (2 * k + 1) (toU8 0)).val) ∧
        e'.PC.val = 0x200 + addProgram.length) ∧
    ((load (some (List.replicate 3585 (toU8 0))) sampleState).1 = false ∧
      (load (some (List.replicate 3585 (toU8 0))) sampleState).2.1 = sampleState) :=
  ⟨⟨rfl, rfl, by decide, by rw [List.length_replicate]; decide⟩,
   load_fetch_spec.1 sampleState addProgram rfl rfl (by decide),
   load_fetch_spec.2 sampleState (List.replicate 3585 (toU8 0))
     (by rw [List.length_replicate]; decide)⟩

/-- C16: for every state, `decrementTimers` leaves delay = max(delay - 1, 0) and
sound = max(sound - 1, 0), each from its own old value, and changes no other part
of the state; after 255 calls both timers are 0. -/
theorem decrementTimers_spec (e : Emulator) :
    (((decrementTimers e).delay.val : Int) = max ((e.delay.val : Int) - 1) 0) ∧
    (((decrementTimers e).sound.val : Int) = max ((e.sound.val : Int) - 1) 0) ∧
    (decrementTimers e).memory = e.memory ∧ (decrementTimers e).display = e.display ∧
    (decrementTimers e).PC = e.PC ∧ (decrementTimers e).I = e.I ∧
    (decrementTimers e).stack = e.stack ∧ (decrementTimers e).registers = e.registers ∧
    (decrementTimers e).keyPress = e.keyPress ∧ (decrementTimers e).gen = e.gen ∧
    ((decrementTimers^[255]) e).delay.val = 0 ∧ ((decrementTimers^[255]) e).sound.val = 0 := by
  have hd := e.delay.isLt
  have hs := e.sound.isLt
  obtain ⟨h1, h2⟩ := decrementTimers_iterate 255 e
  refine ⟨?_, ?_, rfl, rfl, rfl, rfl, rfl, rfl, rfl, rfl, by omega, by omega⟩
  · simp only [decrementTimers]
    split <;> (try simp only [intToU8_val]) <;> omega
  · simp only [decrementTimers]
    split <;> (try simp only [intToU8_val]) <;> omega

/-- C17: for every state, after `decode` of 0x00E0 every one of the 64*32
framebuffer cells read through `getDisplay` is false, and memory, registers, I, PC,
the call stack, the timers and the key slot are unchanged. -/
theorem clear_spec (e : Emulator) :
    ∃ e' out, decode (opcodeNNN 0 0x0E0) e = .ok (e', out) ∧
      (∀ x y, x < 64 → y < 32 → getDisplay e' (y * 64 + x) = false) ∧
      (∀ i, i < 64 * 32 → getDisplay e' i = false) ∧
      e'.memory = e.memory ∧ e'.registers = e.registers ∧ e'.I = e.I ∧ e'.PC = e.PC ∧
      e'.stack = e.stack ∧ e'.delay = e.delay ∧ e'.sound = e.sound ∧
      e'.keyPress = e.keyPress ∧ e'.gen = e.gen := by
  refine ⟨_, _, decode_clear e, ?_, ?_, rfl, rfl, rfl, rfl, rfl, rfl, rfl, rfl, rfl⟩
  · intro x y hx hy
    have h : y * 64 + x < WIDTH * HEIGHT := by simp only [WIDTH, HEIGHT]; omega
    simp only [getDisplay, clearDisplay, h, if_true]
  · intro i hi
    have h : i < WIDTH * HEIGHT := by simp only [WIDTH, HEIGHT]; omega
    simp only [getDisplay, clearDisplay, h, if_true]

/-- C17, concrete instance: `00E0` on the sample state, cell (3, 4) and index 2047. -/
theorem clear_spec_witness :
    (3 < 64 ∧ 4 < 32 ∧ 2047 < 64 * 32) ∧
    ∃ e' out, decode (opcodeNNN 0 0x0E0) sampleState = .ok (e', out) ∧
      getDisplay e' (4 * 64 + 3) = false ∧ getDisplay e' 2047 = false ∧
      e'.memory = sampleState.memory ∧ e'.registers = sampleState.registers :=
  ⟨by decide,
   (clear_spec sampleState).elim fun e' h => h.elim fun out h =>
     ⟨e', out, h.1, h.2.1 3 4 (by decide) (by decide), h.2.2.1 2047 (by decide),
      h.2.2.2.1, h.2.2.2.2.1⟩⟩

/-- C18: for every X, every value v of VX and every I with I + 2 < 4096, after
`decode` of FX33 `memory[I]`, `memory[I+1]`, `memory[I+2]` hold digits h <= 2,
t <= 9, u <= 9 with 100*h + 10*t + u = v; every other memory byte, every register
and I are unchanged. -/
theorem decimal_spec (e : Emulator) (X : Nat) (hX : X < 16) (hI : e.I.val + 2 < 4096) :
    ∃ e' out, decode (opcode 0xF X 3 3) e = .ok (e', out) ∧
      (e'.memory e.I.val).val ≤ 2 ∧ (e'.memory (e.I.val + 1)).val ≤ 9 ∧
      (e'.memory (e.I.val + 2)).val ≤ 9 ∧
      100 * (e'.memory e.I.val).val + 10 * (e'.memory (e.I.val + 1)).val
        + (e'.memory (e.I.val + 2)).val = (e.registers X).val ∧
      (∀ a, a ≠ e.I.val → a ≠ e.I.val + 1 → a ≠ e.I.val + 2 → e'.memory a = e.memory a) ∧
      e'.registers = e.registers ∧ e'.I = e.I := by
  have hv := (e.registers X).isLt
  refine ⟨_, _, decode_decimal e X hX hI, ?_, ?_, ?_, ?_, ?_, rfl, rfl⟩
  · simp [assign_apply]
    omega
  · simp [assign_apply]
    omega
  · simp [assign_apply]
    omega
  · simp [assign_apply]
    omega
  · intro a h0 h1 h2
    simp [assign_apply, h0, h1, h2]

/-- C18, concrete instance: `F133` on the store state, where V1 = 187 and I = 0x300. -/
theorem decimal_spec_witness :
    (1 < 16 ∧ storeState.I.val + 2 < 4096) ∧
    ∃ e' out, decode (opcode 0xF 1 3 3) storeState = .ok (e', out) ∧
      (e'.memory storeState.I.val).val ≤ 2 ∧ (e'.memory (storeState.I.val + 1)).val ≤ 9 ∧
      (e'.memory (storeState.I.val + 2)).val ≤ 9 ∧
      100 * (e'.memory storeState.I.val).val + 10 * (e'.memory (storeState.I.val + 1)).val
        + (e'.memory (storeState.I.val + 2)).val = (storeState.registers 1).val ∧
      (∀ a, a ≠ storeState.I.val → a ≠ storeState.I.val + 1 → a ≠ storeState.I.val + 2 →
        e'.memory a = storeState.memory a) ∧
      e'.registers = storeState.registers ∧ e'.I = storeState.I :=
  ⟨by decide, decimal_spec storeState 1 (by decide) (by decide)⟩

/-- C19, amended: in every state, reachable or not, in which I leaves room for the
access (I + N <= 4096 for DXYN, I + 2 < 4096 for FX33, I + X < 4096 for FX55 and
FX65), every memory access of `decode` is at an address below 4096 and `decode`
returns a state.  (An access at 4096 or above is the only way these opcodes fail
to return.) -/
theorem memory_access_spec (e : Emulator) :
    (∀ X Y N, X < 16 → Y < 16 → N < 16 → e.I.val + N ≤ 4096 →
      ∃ e' out, decode (opcode 0xD X Y N) e = .ok (e', out)) ∧
    (∀ X, X < 16 → e.I.val + 2 < 4096 →
      ∃ e' out, decode (opcode 0xF X 3 3) e = .ok (e', out)) ∧
    (∀ X, X < 16 → e.I.val + X < 4096 →
      ∃ e' out, decode (opcode 0xF X 5 5) e = .ok (e', out)) ∧
    (∀ X, X < 16 → e.I.val + X < 4096 →
      ∃ e' out, decode (opcode 0xF X 6 5) e = .ok (e', out)) := by
  refine ⟨?_, ?_, ?_, ?_⟩
  · intro X Y N hX hY hN hI
    obtain ⟨s', hs', -⟩ := drawRows_frame e.memory e.I.val X N 0
      ((e.registers Y).val % HEIGHT) (e.display, assign e.registers 0xF (toU8 0))
      (Nat.mod_lt _ (by decide)) (by omega)
    refine ⟨{ e with display := s'.1, registers := s'.2 }, [.cout "draw sprite"], ?_⟩
    rw [decode_draw e X Y N hX hY hN]
    simp only [decodeDraw, hs']
  · intro X hX hI
    exact ⟨_, _, decode_decimal e X hX hI⟩
  · intro X hX hI
    obtain ⟨m', hm', -⟩ := storeRegisters_spec e.registers e.I.val (X + 1) 0 e.memory
      (by omega)
    refine ⟨{ e with memory := m', I := toU16 (e.I.val + X + 1) },
      [.unrecognized 0xF X 5 5], ?_⟩
    rw [decode_store e X hX, hm']
  · intro X hX hI
    obtain ⟨R', hR', -⟩ := loadRegisters_spec e.memory e.I.val (X + 1) 0 e.registers
      (by omega)
    refine ⟨{ e with registers := R', I := toU16 (e.I.val + X + 1) },
      [.unrecognized 0xF X 6 5], ?_⟩
    rw [decode_load e X hX, hR']

/-- C19, concrete instance: `D015`, `F033`, `F555` and `F565` on the store state,
where I = 0x300. -/
theorem memory_access_spec_witness :
    (0 < 16 ∧ 1 < 16 ∧ 5 < 16 ∧ storeState.I.val + 5 ≤ 4096 ∧ storeState.I.val + 2 < 4096 ∧
      storeState.I.val + 5 < 4096) ∧
    (∃ e' out, decode (opcode 0xD 0 1 5) storeState = .ok (e', out)) ∧
    (∃ e' out, decode (opcode 0xF 0 3 3) storeState = .ok (e', out)) ∧
    (∃ e' out, decode (opcode 0xF 5 5 5) storeState = .ok (e', out)) ∧
    (∃ e' out, decode (opcode 0xF 5 6 5) storeState = .ok (e', out)) :=
  ⟨by decide,
   (memory_access_spec storeState).1 0 1 5 (by decide) (by decide) (by decide) (by decide),
   (memory_access_spec storeState).2.1 0 (by decide) (by decide),
   (memory_access_spec storeState).2.2.1 5 (by decide) (by decide),
   (memory_access_spec storeState).2.2.2 5 (by decide) (by decide)⟩

/-- C19 as stated fails: `AFFF` on a freshly constructed machine reaches a state
with I = 0xFFF, where `F033`, `F155`, `F165` and `D002` each access `memory[4096]`
(and `F055` moves I to 0x1000). -/
theorem reachable_out_of_range :
    ∃ e, Reachable e ∧ e.I.val = 0xFFF ∧
      decode (opcode 0xF 0 3 3) e = .error (.memoryOutOfRange 4096) ∧
      decode (opcode 0xF 0 5 5) e = .ok
        ({ e with memory := assign e.memory 0xFFF (e.registers 0), I := toU16 0x1000 },
         [.unrecognized 0xF 0 5 5]) ∧
      decode (opcode 0xF 1 5 5) e = .error (.memoryOutOfRange 4096) ∧
      decode (opcode 0xF 1 6 5) e = .error (.memoryOutOfRange 4096) ∧
      decode (opcode 0xD 0 0 2) e = .error (.memoryOutOfRange 4096) :=
  ⟨{ freshMachine with I := toU16 0xFFF },
   Reachable.decode (opcodeNNN 0xA 0xFFF) freshMachine _ [.cout "set index register"]
     (Reachable.new _ _) rfl,
   rfl, rfl, rfl, rfl, rfl, rfl⟩

/-- C20, at the failing input: a machine constructed in storage that held `0xAB`.
PC, the registers, the framebuffer and the font are as the claim says, but the
constructor never writes the rest of `memory`: the bytes at 0x04F, 0x0A0 and 0x300
are still `0xAB`, not 0. -/
theorem new_memory_eval :
    staleMachine.PC.val = 0x200 ∧ (staleMachine.registers 0).val = 0 ∧
    staleMachine.display 0 = false ∧ (staleMachine.memory 0x50).val = 0xF0 ∧
    (staleMachine.memory 0x4F).val = 0xAB ∧ (staleMachine.memory 0xA0).val = 0xAB ∧
    (staleMachine.memory 0x300).val = 0xAB :=
  ⟨rfl, rfl, rfl, rfl, rfl, rfl, rfl⟩

/-- C21, amended: for every X and every value of VX, `decode` of FX29 sets
I = 0x050 + 5*VX, with no mask on VX; when VX is in 0..15 this is
0x050 + 5*(VX mod 16), the address of the font glyph of VX, so that on a machine
whose font region is intact `memory[I .. I+4]` is that glyph. -/
theorem fontChar_spec (e : Emulator) (X : Nat) (hX : X < 16) :
    ∃ e' out, decode (opcode 0xF X 2 9) e = .ok (e', out) ∧
      e'.I.val = 0x050 + 5 * (e.registers X).val ∧
      ((e.registers X).val < 16 →
        e'.I.val = 0x050 + 5 * ((e.registers X).val % 16) ∧
        ((∀ i, i < 80 → e.memory (0x50 + i) = font.getD i (toU8 0)) →
          ∀ j, j < 5 →
            e'.memory (e'.I.val + j) = font.getD (5 * (e.registers X).val + j) (toU8 0))) := by
  have hv := (e.registers X).isLt
  have hI : (toU16 (0x50 + (e.registers X).val * 5)).val = 0x050 + 5 * (e.registers X).val := by
    simp only [toU16_val]
    omega
  refine ⟨_, _, decode_fontChar e X hX, hI, fun hlt => ⟨?_, fun hfont j hj => ?_⟩⟩
  · show (toU16 (0x50 + (e.registers X).val * 5)).val = _
    rw [hI, Nat.mod_eq_of_lt hlt]
  · show e.memory ((toU16 (0x50 + (e.registers X).val * 5)).val + j) = _
    rw [hI]
    have := hfont (5 * (e.registers X).val + j) (by omega)
    rw [← this]
    congr 1
    omega

/-- C21, concrete instance: `F129` on the flag state, where V1 = 2. -/
theorem fontChar_spec_witness :
    (1 < 16 ∧ (flagState.registers 1).val < 16) ∧
    ∃ e' out, decode (opcode 0xF 1 2 9) flagState = .ok (e', out) ∧
      e'.I.val = 0x050 + 5 * (flagState.registers 1).val ∧
      e'.I.val = 0x050 + 5 * ((flagState.registers 1).val % 16) :=
  ⟨by decide,
   (fontChar_spec flagState 1 (by decide)).elim fun e' h => h.elim fun out h =>
     ⟨e', out, h.1, h.2.1, (h.2.2 (by decide)).1⟩⟩

/-- C21 as stated fails for VX = 150: the glyph of the low nibble 6 is at 0x06E, but
`F029` sets I = 0x050 + 5*150 = 0x33E, past the font. -/
theorem fontChar_counterexample :
    (sampleState.registers 0).val = 150 ∧
    0x050 + 5 * ((sampleState.registers 0).val % 16) = 0x06E ∧
    (decode (opcode 0xF 0 2 9) sampleState).map (fun r => r.1.I.val) = .ok 0x33E :=
  ⟨rfl, rfl, rfl⟩

/-- C23: with `newJump = false`, for every state and every NNN, `decode` of BNNN
gives the same machine state as `decode` of 1NNN: PC is NNN, whatever the
registers hold, and nothing else changes (only the line written to `cout`
differs). -/
theorem jumpOffset_spec (e : Emulator) (nnn : Nat) (hn : nnn < 4096) :
    ∃ e' outB out1, decode (opcodeNNN 0xB nnn) e = .ok (e', outB) ∧
      decode (opcodeNNN 1 nnn) e = .ok (e', out1) ∧
      e'.PC.val = nnn ∧ e'.registers = e.registers ∧ e'.memory = e.memory ∧
      e'.display = e.display ∧ e'.I = e.I ∧ e'.stack = e.stack ∧ e'.delay = e.delay ∧
      e'.sound = e.sound ∧ e'.keyPress = e.keyPress ∧ e'.gen = e.gen := by
  refine ⟨_, _, _, decode_jumpOffset e nnn hn, decode_jump e nnn hn, ?_,
    rfl, rfl, rfl, rfl, rfl, rfl, rfl, rfl, rfl⟩
  simp only [toU16_val]
  omega

/-- C23, concrete instance: `B2F0` and `12F0` on the sample state. -/
theorem jumpOffset_spec_witness :
    0x2F0 < 4096 ∧
    ∃ e' outB out1, decode (opcodeNNN 0xB 0x2F0) sampleState = .ok (e', outB) ∧
      decode (opcodeNNN 1 0x2F0) sampleState = .ok (e', out1) ∧
      e'.PC.val = 0x2F0 ∧ e'.registers = sampleState.registers ∧
      e'.memory = sampleState.memory ∧ e'.display = sampleState.display ∧
      e'.I = sampleState.I ∧ e'.stack = sampleState.stack ∧ e'.delay = sampleState.delay ∧
      e'.sound = sampleState.sound ∧ e'.keyPress = sampleState.keyPress ∧
      e'.gen = sampleState.gen :=
  ⟨by decide, jumpOffset_spec sampleState 0x2F0 (by decide)⟩

end Chip8
